import Mathlib

/-!
OSH: the command-processing pipeline of `osh.c`.

A shallow embedding of `src/osh.c`.

* A C string is the list of its characters before the terminating NUL (`Str`).
* A pointer array (`args`, `chrono`) is a list of slots, `none` being `NULL`.
* Every function returns in `Res`: `Res.fault` stands for an execution that
  leaves the defined behaviour of C (an index outside the array, a `NULL`
  passed to `strcmp`, `strlen` or `atoi`).
* `malloc` always succeeds. The blocks it hands out have the sizes of the allocator
  of the GNU C library on a 64-bit system (24, 40, 56, ... bytes); a terminator
  that the program writes or leaves behind such a block is overwritten by the
  allocator, and the string the function returns is then undefined (`Res.fault`).
-/

namespace OSH

/-- Result of running a piece of the program: a value, or undefined behaviour. -/
inductive Res (α : Type) where
  | ok (a : α)
  | fault
  deriving DecidableEq, Repr

/-- Sequencing: a fault aborts the run. -/
def Res.bind {α β : Type} (r : Res α) (f : α → Res β) : Res β :=
  match r with
  | .ok a => f a
  | .fault => .fault

instance : Monad Res where
  pure := Res.ok
  bind := Res.bind

/-- A C string: the characters before the terminator. -/
abbrev Str := List Char

/-- A pointer array `char *a[N]`: `none` is `NULL`. -/
abbrev Slots := List (Option Str)

def PROMPT : String := "osh>"
def MAX_LINE : Nat := 80
def MAX_CHRONO : Nat := 128
def MAX_CMD : Nat := 15

def INPUT_ERROR : Int := -1
def MEM_ERROR : Int := -2
def FORK_ERROR : Int := -3
def GENERAL_ERROR : Int := -4
def CMD_NOT_FOUND : Int := -5
def INVALID_ARGUMENT : Int := -6
def EMPTY_HISTORY : Int := -7
def EXIT : Int := -9
def NO_ERRORS : Int := -10

def DEF_SIZ : Nat := 128
def END_LINE : Char := '\n'
def END_STR : Char := '\x00'

/-- The table entry `struct command`. -/
structure command_t where
  command : Str
  needs_args : Int
  deriving DecidableEq, Repr

/-- The table entry `struct error`. -/
structure error_t where
  error_msg : String
  error_code : Int
  should_exit : Int
  deriving DecidableEq, Repr

/-- The table `cmds` of `main`. -/
def cmds : List command_t :=
  [ ⟨"exit".toList, 0⟩, ⟨"history".toList, 0⟩, ⟨"!!".toList, 0⟩, ⟨"!".toList, 1⟩ ]

def cmds_len : Nat := 4

/-- The table `errs` of `main`. -/
def errs : List error_t :=
  [ ⟨"I/O Error: Something happened while getting the input\n", INPUT_ERROR, 0⟩,
    ⟨"Memory Error: Something happened while working with memory\n", MEM_ERROR, 1⟩,
    ⟨"Internal Error: A sys call failed\n", FORK_ERROR, 1⟩,
    ⟨"Command not found\n", CMD_NOT_FOUND, 0⟩,
    ⟨"Invalid Argument: An argument is invalid\n", INVALID_ARGUMENT, 0⟩,
    ⟨"La history e' vuota\n", EMPTY_HISTORY, 0⟩,
    ⟨"", NO_ERRORS, 0⟩,
    ⟨"Something unexpected happened\n", GENERAL_ERROR, 1⟩ ]

def errs_len : Nat := 8

/-- The byte `cmd[i]` of a C string; the terminator is read at index `strlen cmd`. -/
def charAt (cmd : Str) (i : Nat) : Char := cmd.getD i END_STR

/-- The function `isprint` of `<ctype.h>` in the "C" locale (the program never calls `setlocale`):
the characters 0x20 (space) to 0x7e. -/
def isprint (c : Char) : Bool := decide (0x20 ≤ c.toNat) && decide (c.toNat ≤ 0x7e)

/-! ## The heap: `malloc`, `realloc` -/

/-- The size of the chunk that `malloc` of the GNU C library reserves on a 64-bit
system for a request of `n` bytes: the request and the 8 bytes of the size field,
rounded up to a multiple of 16, and at least 32. -/
def chunk_size (n : Nat) : Nat := max 32 ((n + 8 + 15) / 16 * 16)

/-- The bytes of the block handed out for a request of `n` bytes: the chunk less its
size field, so 24, 40, 56, ... The byte behind them is the size field of the next
chunk. -/
def malloc_usable (n : Nat) : Nat := chunk_size n - 8

/-- The call `realloc(p, n)` on a block that came from `malloc(old)`, `n ≤ old`, and
holds the C string `s`, terminator included. With `n = 0` the block is freed and the
result is `NULL`. When the chunk is at least 32 bytes larger than the request needs,
it is split and the part given back gets a size field of its own, written right
behind the `malloc_usable n` bytes kept: a terminator at that index or beyond is
lost. Otherwise the block is returned as it is. -/
def realloc_string (s : Str) (old n : Nat) : Res (Option Str) :=
  if n = 0 then .ok none
  else if chunk_size n + 32 ≤ chunk_size old ∧ malloc_usable n ≤ s.length then .fault
  else .ok (some s)

/-! ## Normalizer: `trim_str`, `del_double` -/

/-- First loop of `trim_str`: `while(cmd[start_index] == ' ') start_index++;`, run on
the characters from `start_index` on. It stops at the terminator at the latest. -/
def trim_start : Str → Nat → Nat
  | [], start_index => start_index
  | c :: rest, start_index =>
    if c = ' ' then trim_start rest (start_index + 1) else start_index

/-- Second loop of `trim_str`: `while(cmd[end_index] == ' ') end_index--;`.
Decrementing `end_index` below 0 makes the next read `cmd[SIZE_MAX]`, outside the
string. -/
def trim_end (cmd : Str) : Nat → Res Nat
  | 0 => if charAt cmd 0 = ' ' then .fault else .ok 0
  | e + 1 => if charAt cmd (e + 1) = ' ' then trim_end cmd e else .ok (e + 1)

/-- The function `trim_str(cmd, len)`. With `len = 0` the initial `end_index = len-1`
is `SIZE_MAX` and the first read of the second loop is outside the string. When the
second loop ends inside the string, `start_index ≤ end_index`, so the unsigned
`(end_index-start_index)+1` does not wrap. The `++new_length` that should make room
for the terminator is overwritten by the next assignment: the block is
`malloc(new_length)` and the terminator is written at `new_cmd[new_length]`, which
lies behind the block when the block has exactly `new_length` bytes. The result is
`realloc(new_cmd, new_length)`. -/
def trim_str (cmd : Str) (len : Nat) : Res (Option Str) :=
  if len = 0 then .fault
  else
    let start_index := trim_start cmd 0
    match trim_end cmd (len - 1) with
    | .fault => .fault
    | .ok end_index =>
      let new_length := (end_index - start_index) + 1
      let new_cmd := (cmd.drop start_index).take new_length
      if malloc_usable new_length ≤ new_length then .fault
      else realloc_string new_cmd new_length new_length

/-- The loop of `del_double`, on the characters not yet read; `last_char_spec` is the
C flag. -/
def del_double_loop : Bool → Str → Str
  | _, [] => []
  | last_char_spec, c :: rest =>
    if (c = ' ' ∨ c = '\n') ∧ last_char_spec = false then
      c :: del_double_loop true rest
    else if isprint c then
      c :: del_double_loop false rest
    else
      del_double_loop last_char_spec rest

/-- The function `del_double(cmd, len)`. The block is `malloc(len+1)`, the kept
characters and the terminator at `new_cmd[second_index]` are written inside it, and
the result is `realloc(new_cmd, second_index)`, which does not count the terminator
and is `NULL` when nothing was kept. -/
def del_double (cmd : Str) (len : Nat) : Res (Option Str) :=
  let new_cmd := del_double_loop false cmd
  let second_index := new_cmd.length
  realloc_string new_cmd (len + 1) second_index

/-- The normalization of `main`: `trim_str(actual_cmd, strlen(actual_cmd))` and then,
unless the result is `NULL`, `del_double(worked_cmd, strlen(worked_cmd))`. -/
def normalize (x : Str) : Res (Option Str) :=
  match trim_str x x.length with
  | .fault => .fault
  | .ok none => .ok none
  | .ok (some worked_cmd) => del_double worked_cmd worked_cmd.length

/-! ## Pointer arrays: `init`, `push`, `pop`, `get`, `new_arr`, `check_content` -/

/-- The function `init(args, len)`: every slot is `NULL`. -/
def init (len : Nat) : Slots := List.replicate len none

/-- The function `push(args, token, pos)`. It reads `args[pos]` with no check of
`pos` against the size of the array; `strlen(token)` is only reached when the slot is
free. Returns the signal and the array after the call. -/
def push (args : Slots) (token : Option Str) (pos : Nat) : Res (Int × Slots) :=
  match args[pos]? with
  | none => .fault
  | some none =>
    match token with
    | none => .fault
    | some t => .ok (NO_ERRORS, args.set pos (some t))
  | some (some _) => .ok (MEM_ERROR, args)

/-- The zipping loop of `pop`: `for (i=pos; i<(len-1) && args[i]; i++) args[i] = args[i+1];`
with `fuel` the number of iterations left before `i` reaches `len-1`. -/
def pop_loop (len : Nat) : Nat → Nat → Slots → Res Slots
  | 0, _, args => .ok args
  | fuel + 1, i, args =>
    if i < len - 1 then
      match args[i]? with
      | none => .fault
      | some none => .ok args
      | some (some _) =>
        match args[i + 1]? with
        | none => .fault
        | some next => pop_loop len fuel (i + 1) (args.set i next)
    else .ok args

/-- The function `pop(args, pos, len)`. -/
def pop (args : Slots) (pos len : Nat) : Res (Int × Slots) :=
  match args[pos]? with
  | none => .fault
  | some none => .ok (MEM_ERROR, args)
  | some (some _) =>
    match pop_loop len (len - 1 - pos) pos args with
    | .fault => .fault
    | .ok args1 => .ok (NO_ERRORS, args1)

/-- The function `get(args, len, index)`: the pointer stored at `index`, `NULL` when
`index >= len`. -/
def get (args : Slots) (len index : Nat) : Res (Option Str) :=
  if index ≥ len then .ok none
  else
    match args[index]? with
    | none => .fault
    | some slot => .ok slot

/-- The function `new_arr(args, len, index)`: the pointer `args+index`, as the offset
of its first slot, or `NULL`. -/
def new_arr (_args : Slots) (len index : Nat) : Option Nat :=
  if index ≥ len then none else some index

/-- The loop of `check_content` over `args[i]`, `i < len`, where `args` is the pointer
`base + off`; `fuel` is `len - i`. -/
def check_content_loop (base : Slots) (off : Nat) : Nat → Nat → Int → Res Int
  | 0, _, num => .ok num
  | fuel + 1, i, num =>
    match base[off + i]? with
    | none => .fault
    | some none => check_content_loop base off fuel (i + 1) num
    | some (some _) => check_content_loop base off fuel (i + 1) (num + 1)

/-- The function `check_content(args, len)`, `args` being a pointer into `base`. -/
def check_content (base : Slots) (args : Option Nat) (len : Nat) : Res Int :=
  match args with
  | none => if len = 0 then .ok 0 else .fault
  | some off => check_content_loop base off len 0 0

/-! ## Tokenizer: `split_tokens` -/

/-- The loop of `split_tokens` on the characters `cmd[k..len)`, `len = strlen(cmd)+1`,
the last of them being the terminator. `buffer_key` holds the `i` characters of the
token being read, `j` is the next index of `args`. -/
def split_tokens_loop : Str → Str → Nat → Slots → Res (Int × Slots)
  | [], _, _, args => .ok (NO_ERRORS, args)
  | c :: rest, buffer_key, j, args =>
    if buffer_key.length < DEF_SIZ then
      if c = ' ' ∨ c = END_LINE ∨ c = END_STR then
        match push args (some buffer_key) j with
        | .fault => .fault
        | .ok (flag, args1) =>
          if flag ≠ NO_ERRORS then .ok (MEM_ERROR, args1)
          else split_tokens_loop rest [] (j + 1) args1
      else split_tokens_loop rest (buffer_key ++ [c]) j args
    else .ok (NO_ERRORS, args)

/-- The function `split_tokens(cmd, args)`. -/
def split_tokens (cmd : Option Str) (args : Slots) : Res (Int × Slots) :=
  match cmd with
  | none => .ok (INPUT_ERROR, args)
  | some s => split_tokens_loop (s ++ [END_STR]) [] 0 args

/-- The tokens stored in an argument vector, in index order. -/
def tokens (args : Slots) : List Str := args.filterMap id

/-! ## Tables: `error_handler`, `search_cmd`, `requires_args` -/

/-- The loop of `error_handler`; `fuel` is `len - i`. Returns the signal and the
message written to `end_file`. -/
def error_handler_loop (errs : List error_t) (err : Int) : Nat → Nat → Res (Option (Int × String))
  | 0, _ => .ok none
  | fuel + 1, i =>
    match errs[i]? with
    | none => .fault
    | some e =>
      if err = e.error_code then
        .ok (some (if e.should_exit ≠ 0 then EXIT else NO_ERRORS, e.error_msg))
      else error_handler_loop errs err fuel (i + 1)

/-- The function `error_handler(errs, len, err, end_file)`: the signal returned and the
text written to `end_file`. -/
def error_handler (errs : List error_t) (len : Nat) (err : Int) : Res (Int × String) :=
  if err ≥ 0 then .ok (NO_ERRORS, "")
  else
    match error_handler_loop errs err len 0 with
    | .fault => .fault
    | .ok (some r) => .ok r
    | .ok none =>
      if len = 0 then .fault
      else
        match errs[len - 1]? with
        | none => .fault
        | some e => .ok (GENERAL_ERROR, e.error_msg)

/-- The loop of `search_cmd`; `fuel` is `len - i`. `strcmp` with a `NULL` argument is
a fault. -/
def search_cmd_loop (cmds : List command_t) (cmd : Option Str) : Nat → Nat → Res Int
  | 0, _ => .ok NO_ERRORS
  | fuel + 1, i =>
    match cmds[i]?, cmd with
    | none, _ => .fault
    | some _, none => .fault
    | some c, some s =>
      if c.command = s then .ok (i : Int) else search_cmd_loop cmds cmd fuel (i + 1)

/-- The function `search_cmd(cmds, len, cmd)`. -/
def search_cmd (cmds : List command_t) (len : Nat) (cmd : Option Str) : Res Int :=
  search_cmd_loop cmds cmd len 0

/-- The function `requires_args(cmds, len, index)`. -/
def requires_args (cmds : List command_t) (_len : Nat) (index : Nat) : Res Int :=
  match cmds[index]? with
  | none => .fault
  | some c => .ok c.needs_args

/-! ## Classifier: `check_code` -/

/-- The function `check_code(args, cmds, len_args, len_cmds)`; `args` is never `NULL`
in `main`. -/
def check_code (args : Slots) (cmds : List command_t) (len_args len_cmds : Nat) : Res Int :=
  match get args len_args 0 with
  | .fault => .fault
  | .ok cmd =>
    let parameters := new_arr args len_args 1
    match search_cmd cmds len_cmds cmd with
    | .fault => .fault
    | .ok cmd_flag =>
      if cmd_flag ≥ 0 then
        match requires_args cmds len_cmds cmd_flag.toNat with
        | .fault => .fault
        | .ok needs =>
          if needs ≠ 0 then
            match check_content args parameters len_args with
            | .fault => .fault
            | .ok num => if num ≠ 0 then .ok cmd_flag else .ok INVALID_ARGUMENT
          else .ok cmd_flag
      else .ok NO_ERRORS

/-! ## Built-ins and external commands -/

/-- The function `isspace` of `<ctype.h>` in the "C" locale. -/
def isspace (c : Char) : Bool := c = ' ' || (decide (9 ≤ c.toNat) && decide (c.toNat ≤ 13))

/-- The function `isdigit` of `<ctype.h>`. -/
def isdigit (c : Char) : Bool := decide (48 ≤ c.toNat) && decide (c.toNat ≤ 57)

/-- The decimal digits at the head of a string, accumulated onto `acc`. -/
def atoi_digits : Str → Nat → Nat
  | [], acc => acc
  | c :: rest, acc => if isdigit c then atoi_digits rest (10 * acc + (c.toNat - 48)) else acc

/-- The function `atoi` of `<stdlib.h>`: leading white space, an optional sign, decimal
digits. A `NULL` argument and a value outside `int` are undefined. -/
def atoi (nptr : Option Str) : Res Int :=
  match nptr with
  | none => .fault
  | some s =>
    let value : Int :=
      match s.dropWhile isspace with
      | '-' :: rest => - (atoi_digits rest 0 : Int)
      | '+' :: rest => (atoi_digits rest 0 : Int)
      | rest => (atoi_digits rest 0 : Int)
    if -2147483648 ≤ value ∧ value ≤ 2147483647 then .ok value else .fault

/-- The loop of `history`: `for (i=chrono_len; i>=max && chrono[i]; i--)`, printing
`j entry` lines. After `i = 0` the decrement gives `SIZE_MAX`, which passes `i>=max`
and indexes outside the array. -/
def history_loop (chrono : Slots) (max : Nat) : Nat → Nat → Res (List (Nat × Str))
  | 0, _ =>
    if 0 ≥ max then
      match chrono[0]? with
      | none => .fault
      | some none => .ok []
      | some (some _) => .fault
    else .ok []
  | i + 1, j =>
    if i + 1 ≥ max then
      match chrono[i + 1]? with
      | none => .fault
      | some none => .ok []
      | some (some e) =>
        match history_loop chrono max i (j + 1) with
        | .fault => .fault
        | .ok lines => .ok ((j, e) :: lines)
    else .ok []

/-- The function `history(chrono, chrono_len, lim)`: the lines printed. -/
def history (chrono : Slots) (chrono_len lim : Nat) : Res (List (Nat × Str)) :=
  let max := if chrono_len ≤ lim then 0 else chrono_len - lim
  history_loop chrono max chrono_len 0

/-- The loop of `check_background`: `while(i < len && args[i]) i++;`; `fuel` is
`len - i`. Returns the final `i`. -/
def check_background_loop (args : Slots) (len : Nat) : Nat → Nat → Res Nat
  | 0, i => .ok i
  | fuel + 1, i =>
    if i < len then
      match args[i]? with
      | none => .fault
      | some none => .ok i
      | some (some _) => check_background_loop args len fuel (i + 1)
    else .ok i

/-- The function `check_background(args, len)`. With `i = 0` the read `args[i-1]` is
outside the array. -/
def check_background (args : Slots) (len : Nat) : Res Int :=
  match check_background_loop args len len 0 with
  | .fault => .fault
  | .ok i =>
    if i = 0 then .fault
    else
      match args[i - 1]? with
      | none => .fault
      | some none => .fault
      | some (some t) => if charAt t 0 = '&' then .ok ((i - 1 : Nat) : Int) else .ok 0

/-- What `fork` and `execvp` do for the process that is followed: `fork` fails, or
this is the child and `execvp` returned -1, or this is the parent. -/
inductive Proc where
  | fork_failed
  | child_exec_failed
  | parent
  deriving DecidableEq, Repr

/-- The function `extern_code(args, args_len, errs, errs_len)`: the signal, the
argument vector as passed to `execvp`, and the text written to `stderr`. -/
def extern_code (args : Slots) (args_len : Nat) (errs : List error_t) (errs_len : Nat)
    (p : Proc) : Res (Int × Slots × String) := do
  let bg ← check_background args args_len
  let forked (args1 : Slots) (msg : String) : Res (Int × Slots × String) :=
    match p with
    | .fork_failed => .ok (FORK_ERROR, args1, msg)
    | .child_exec_failed => .ok (CMD_NOT_FOUND, args1, msg)
    | .parent => .ok (NO_ERRORS, args1, msg)
  if bg ≠ 0 then
    let (flag, args1) ← pop args bg.toNat MAX_LINE
    let (flag_pop, msg) ← error_handler errs errs_len flag
    if flag_pop = EXIT then .ok (EXIT, args1, msg) else forked args1 msg
  else forked args ""

/-- Result of `intern_code`: the value returned, the history array after the call, the
text written to `stderr` and the lines printed by `history`. -/
structure Intern where
  ret : Int
  chrono : Slots
  err_out : String
  listing : List (Nat × Str)
  deriving DecidableEq, Repr

/-- The function `intern_code(errs, errs_len, args, args_len, code_flag, chrono, chrono_pos)`. -/
def intern_code (errs : List error_t) (errs_len : Nat) (args : Slots) (_args_len : Nat)
    (code_flag : Int) (chrono : Slots) (chrono_pos : Nat) : Res Intern :=
  if code_flag = 0 then .ok ⟨0, chrono, "", []⟩
  else if code_flag = 1 then do
    let token ← (match args[0]? with
      | none => Res.fault
      | some t => Res.ok t)
    let (flag, chrono1) ← push chrono token chrono_pos
    let (exit_flag, msg) ← error_handler errs errs_len flag
    if exit_flag = EXIT then .ok ⟨EXIT, chrono1, msg, []⟩
    else do
      let lines ← history chrono1 chrono_pos 10
      .ok ⟨NO_ERRORS, chrono1, msg, lines⟩
  else if code_flag = 2 then .ok ⟨1, chrono, "", []⟩
  else if code_flag = 3 then do
    let arg ← (match args[1]? with
      | none => Res.fault
      | some t => Res.ok t)
    let num ← atoi arg
    if num = 0 then .ok ⟨INVALID_ARGUMENT, chrono, "", []⟩ else .ok ⟨num, chrono, "", []⟩
  else .ok ⟨NO_ERRORS, chrono, "", []⟩

/-! ## The REPL loop of `main` -/

/-- The variables of `main` that live across iterations; `args` is all `NULL` at the
start of every iteration. -/
structure Shell where
  actual_cmd : Option Str
  chrono : Slots
  chrono_pos : Nat
  deriving DecidableEq, Repr

/-- The state of `main` before the loop. -/
def Shell.start : Shell := ⟨none, init MAX_CHRONO, 0⟩

/-- How an iteration of the loop leaves: to the next iteration, or by `goto end`. -/
inductive Control where
  | again (s : Shell)
  | finish
  deriving DecidableEq, Repr

/-- What one iteration did: where control goes, the text written to `stderr`, the
lines printed by `history`, and the vector handed to `execvp` if `extern_code` ran. -/
structure Step where
  next : Control
  err_out : String
  listing : List (Nat × Str)
  executed : Option Slots
  deriving DecidableEq, Repr

/-- The unsigned subtraction `chrono_pos - flags[INTERN_FLAGS]` of `main` (`size_t`
minus `int`, modulo 2^64). -/
def size_sub (a : Nat) (b : Int) : Nat := (((a : Int) - b) % (2 ^ 64 : Int)).toNat

/-- Lines 141-147 of `main`: the command is not a built-in. It is saved in the history
at the cursor, the cursor advances, and `extern_code` runs. `out` is the text written
to `stderr` so far in the iteration. -/
def main_extern (s : Shell) (actual_cmd : Option Str) (args : Slots) (out : String)
    (p : Proc) : Res Step := do
  let (f_push, chrono1) ← push s.chrono actual_cmd s.chrono_pos
  let chrono_pos1 := s.chrono_pos + 1
  let (e3, m3) ← error_handler errs errs_len f_push
  if e3 = EXIT then .ok ⟨.finish, out ++ m3, [], none⟩
  else do
    let (f_ext, args1, m4) ← extern_code args MAX_LINE errs errs_len p
    let (e5, m5) ← error_handler errs errs_len f_ext
    if e5 = EXIT then .ok ⟨.finish, out ++ m3 ++ m4 ++ m5, [], some args1⟩
    else .ok ⟨.again ⟨none, chrono1, chrono_pos1⟩, out ++ m3 ++ m4 ++ m5, [], some args1⟩

/-- Lines 149-177 of `main`: the internal commands. A positive result of `intern_code`
is an offset into the history: the entry found is copied into `actual_cmd` for the
next iteration. A negative result advances the cursor. -/
def main_intern (s : Shell) (args : Slots) (f_code : Int) (out : String) : Res Step := do
  let r ← intern_code errs errs_len args MAX_LINE f_code s.chrono s.chrono_pos
  let (e3, m3) ← error_handler errs errs_len r.ret
  let out1 := out ++ r.err_out ++ m3
  if e3 = EXIT then .ok ⟨.finish, out1, r.listing, none⟩
  else if r.ret = 0 then .ok ⟨.finish, out1, r.listing, none⟩
  else if r.ret > 0 then do
    let worked_cmd ← get r.chrono s.chrono_pos (size_sub s.chrono_pos r.ret)
    match worked_cmd with
    | some w => .ok ⟨.again ⟨some w, r.chrono, s.chrono_pos⟩, out1, r.listing, none⟩
    | none => do
      let (_, m4) ← error_handler errs errs_len GENERAL_ERROR
      .ok ⟨.again ⟨none, r.chrono, s.chrono_pos⟩, out1 ++ m4, r.listing, none⟩
  else .ok ⟨.again ⟨none, r.chrono, s.chrono_pos + 1⟩, out1, r.listing, none⟩

/-- Lines 126-178 of `main`, once `trim_str` has returned the string `worked_cmd`:
`del_double`, `split_tokens`, `check_code` and the execution. `actual_cmd` may be
`NULL` after `del_double`; `split_tokens` then returns `INPUT_ERROR`, which does not
end the iteration. -/
def main_process (s : Shell) (worked_cmd : Str) (p : Proc) : Res Step := do
  let actual_cmd ← del_double worked_cmd worked_cmd.length
  let (f_args, args) ← split_tokens actual_cmd (init MAX_LINE)
  let (e1, m1) ← error_handler errs errs_len f_args
  if e1 = EXIT then .ok ⟨.finish, m1, [], none⟩
  else do
    let f_code ← check_code args cmds MAX_LINE cmds_len
    let (e2, m2) ← error_handler errs errs_len f_code
    if e2 = EXIT then .ok ⟨.finish, m1 ++ m2, [], none⟩
    else if f_code = NO_ERRORS then main_extern s actual_cmd args (m1 ++ m2) p
    else main_intern s args f_code (m1 ++ m2)

/-- One iteration of the `while(1)` loop of `main`. `input` is what `get_input`
returns if it is called, `p` what `fork`/`execvp` do if `extern_code` is called. When
`trim_str` returns `NULL` the iteration ends by `continue` with `actual_cmd` still
set. The `NULL` result of `copy` comes from a failed `malloc` only and does not occur
here. -/
def main_iteration (s : Shell) (input : Option Str) (p : Proc) : Res Step :=
  let pending := match s.actual_cmd with
    | some c => some c
    | none => input
  match pending with
  | none => .ok ⟨.again s, "", [], none⟩
  | some line =>
    match trim_str line line.length with
    | .fault => .fault
    | .ok none => .ok ⟨.again ⟨some line, s.chrono, s.chrono_pos⟩, "", [], none⟩
    | .ok (some worked_cmd) => main_process s worked_cmd p

/-- The history update of `main` (line 142, `push(chrono, actual_cmd, chrono_pos++)`)
repeated for a list of commands, stopping at the first signal other than `NO_ERRORS`.
Returns the last signal, the history array and the cursor. -/
def record_all : List Str → Slots → Nat → Res (Int × Slots × Nat)
  | [], chrono, chrono_pos => .ok (NO_ERRORS, chrono, chrono_pos)
  | e :: rest, chrono, chrono_pos =>
    match push chrono (some e) chrono_pos with
    | .fault => .fault
    | .ok (flag, chrono1) =>
      if flag ≠ NO_ERRORS then .ok (flag, chrono1, chrono_pos + 1)
      else record_all rest chrono1 (chrono_pos + 1)

/-- The states of `main` at the top of the loop: the state before the loop, and every
state an iteration continues to. -/
inductive Reachable : Shell → Prop where
  | start : Reachable Shell.start
  | step (s t : Shell) (input : Option Str) (p : Proc) (st : Step) :
      Reachable s → main_iteration s input p = .ok st → st.next = .again t → Reachable t

/-! ## Lemmas on the normalizer -/

@[simp] theorem Res.ok_bind {α β : Type} (a : α) (f : α → Res β) :
    (Res.ok a >>= f) = f a := rfl

@[simp] theorem Res.fault_bind {α β : Type} (f : α → Res β) :
    ((Res.fault : Res α) >>= f) = Res.fault := rfl

theorem del_double_loop_special (b : Bool) (c : Char) (rest : Str)
    (h : (c = ' ' ∨ c = '\n') ∧ b = false) :
    del_double_loop b (c :: rest) = c :: del_double_loop true rest := by
  simp only [del_double_loop, if_pos h]

theorem del_double_loop_print (b : Bool) (c : Char) (rest : Str)
    (h : ¬ ((c = ' ' ∨ c = '\n') ∧ b = false)) (hp : isprint c = true) :
    del_double_loop b (c :: rest) = c :: del_double_loop false rest := by
  simp only [del_double_loop, if_neg h, hp, if_true]

theorem del_double_loop_skip (b : Bool) (c : Char) (rest : Str)
    (h : ¬ ((c = ' ' ∨ c = '\n') ∧ b = false)) (hp : isprint c = false) :
    del_double_loop b (c :: rest) = del_double_loop b rest := by
  simp [del_double_loop, if_neg h, hp]

/-- Running `del_double` on its own output changes nothing. -/
theorem del_double_loop_idem (l : Str) :
    ∀ b : Bool, del_double_loop b (del_double_loop b l) = del_double_loop b l := by
  induction l with
  | nil => intro b; simp [del_double_loop]
  | cons c rest ih =>
    intro b
    by_cases h1 : (c = ' ' ∨ c = '\n') ∧ b = false
    · rw [del_double_loop_special b c rest h1, del_double_loop_special b c _ h1, ih true]
    · cases hp : isprint c with
      | true =>
        rw [del_double_loop_print b c rest h1 hp, del_double_loop_print b c _ h1 hp, ih false]
      | false =>
        rw [del_double_loop_skip b c rest h1 hp, ih b]

/-- A printable character other than the space is kept, whatever the flag. -/
theorem del_double_loop_keep (b : Bool) (c : Char) (rest : Str)
    (hs : c ≠ ' ') (hp : isprint c = true) :
    del_double_loop b (c :: rest) = c :: del_double_loop false rest := by
  have hn : c ≠ '\n' := by
    intro h
    rw [h] at hp
    exact absurd hp (by decide)
  exact del_double_loop_print b c rest (fun h => h.1.elim hs hn) hp

/-- The output of `del_double` ends with the last character of its input when that
character is printable and not the space. -/
theorem del_double_loop_last (l : Str) (c : Char) (hs : c ≠ ' ') (hp : isprint c = true) :
    ∀ b : Bool, ∃ z, del_double_loop b (l ++ [c]) = z ++ [c] := by
  induction l with
  | nil =>
    intro b
    exact ⟨[], by rw [List.nil_append, del_double_loop_keep b c [] hs hp]; rfl⟩
  | cons d rest ih =>
    intro b
    by_cases h1 : (d = ' ' ∨ d = '\n') ∧ b = false
    · obtain ⟨z, hz⟩ := ih true
      exact ⟨d :: z, by rw [List.cons_append, del_double_loop_special b d _ h1, hz]; rfl⟩
    · cases hd : isprint d with
      | true =>
        obtain ⟨z, hz⟩ := ih false
        exact ⟨d :: z, by rw [List.cons_append, del_double_loop_print b d _ h1 hd, hz]; rfl⟩
      | false =>
        obtain ⟨z, hz⟩ := ih b
        exact ⟨z, by rw [List.cons_append, del_double_loop_skip b d _ h1 hd, hz]⟩

/-- The first loop of `trim_str` counts the leading spaces. -/
theorem trim_start_spaces (sp : Str) (hsp : ∀ c ∈ sp, c = ' ') (a : Char) (rest : Str)
    (ha : a ≠ ' ') : ∀ i, trim_start (sp ++ a :: rest) i = i + sp.length := by
  induction sp with
  | nil => intro i; simp [trim_start, ha]
  | cons c sp ih =>
    intro i
    have hc : c = ' ' := hsp c (by simp)
    have hrest : ∀ c ∈ sp, c = ' ' := fun d hd => hsp d (by simp [hd])
    show trim_start (c :: (sp ++ a :: rest)) i = i + (c :: sp).length
    rw [trim_start, if_pos hc, ih hrest, List.length_cons]
    omega

/-- The second loop of `trim_str` stops at the last character that is not a space. -/
theorem trim_end_spaces (pre : Str) (b : Char) (hb : b ≠ ' ') (sp : Str)
    (hsp : ∀ c ∈ sp, c = ' ') :
    ∀ k, k ≤ sp.length → trim_end (pre ++ b :: sp) (pre.length + k) = .ok pre.length := by
  have hat : charAt (pre ++ b :: sp) pre.length = b := by
    have : (pre ++ b :: sp)[pre.length]? = some b := by
      rw [List.getElem?_append_right (le_refl _)]
      simp
    simp only [charAt, List.getD_eq_getElem?_getD, this, Option.getD_some]
  intro k
  induction k with
  | zero =>
    intro _
    cases hpre : pre.length with
    | zero => rw [hpre] at hat; simp [trim_end, hat, hb]
    | succ n => rw [hpre] at hat; simp [trim_end, hat, hb]
  | succ k ih =>
    intro hk
    have hsp_at : charAt (pre ++ b :: sp) (pre.length + (k + 1)) = ' ' := by
      have hlt : k < sp.length := by omega
      have : (pre ++ b :: sp)[pre.length + (k + 1)]? = some sp[k] := by
        rw [List.getElem?_append_right (by omega)]
        simp [Nat.add_sub_cancel_left, hlt]
      simp only [charAt, List.getD_eq_getElem?_getD, this, Option.getD_some]
      exact hsp _ (List.getElem_mem _)
    show trim_end (pre ++ b :: sp) ((pre.length + k) + 1) = .ok pre.length
    simp only [trim_end]
    rw [show pre.length + k + 1 = pre.length + (k + 1) from rfl, hsp_at]
    simp [ih (by omega)]

/-- A `realloc` to the length of the string returns the string when the terminator
lies inside the block of that size. -/
theorem realloc_string_fits (s : Str) (old : Nat) (hne : s ≠ [])
    (hfit : s.length < malloc_usable s.length) :
    realloc_string s old s.length = .ok (some s) := by
  have h0 : ¬ (s.length = 0) := by
    intro h
    exact hne (List.length_eq_zero.mp h)
  have h1 : ¬ (chunk_size s.length + 32 ≤ chunk_size old ∧ malloc_usable s.length ≤ s.length) := by
    intro h
    omega
  simp only [realloc_string, if_neg h0, if_neg h1]

/-- The function `trim_str` returns the part between the first and the last character
that is not a space, when the terminator lies inside the block of that size. -/
theorem trim_str_mid (sp m sp1 : Str) (a b : Char) (hsp : ∀ c ∈ sp, c = ' ')
    (hsp1 : ∀ c ∈ sp1, c = ' ') (ha : (m ++ [b]).head? = some a) (hna : a ≠ ' ')
    (hnb : b ≠ ' ') (hfit : (m ++ [b]).length < malloc_usable (m ++ [b]).length) :
    trim_str (sp ++ (m ++ [b]) ++ sp1) (sp ++ (m ++ [b]) ++ sp1).length
      = .ok (some (m ++ [b])) := by
  obtain ⟨t, ht⟩ : ∃ t, m ++ [b] = a :: t := by
    cases hm : m ++ [b] with
    | nil => simp at hm
    | cons x t => rw [hm] at ha; simp at ha; exact ⟨t, by rw [ha]⟩
  have hstart : trim_start (sp ++ (m ++ [b]) ++ sp1) 0 = sp.length := by
    rw [ht, List.append_assoc, List.cons_append, trim_start_spaces sp hsp a _ hna 0]
    simp
  have hend : trim_end (sp ++ (m ++ [b]) ++ sp1) ((sp ++ (m ++ [b]) ++ sp1).length - 1)
      = .ok (sp ++ m).length := by
    have e1 : sp ++ (m ++ [b]) ++ sp1 = (sp ++ m) ++ b :: sp1 := by simp
    have e2 : (sp ++ (m ++ [b]) ++ sp1).length - 1 = (sp ++ m).length + sp1.length := by
      simp; omega
    rw [e2, e1]
    exact trim_end_spaces (sp ++ m) b hnb sp1 hsp1 sp1.length (le_refl _)
  have hlen : (sp ++ (m ++ [b]) ++ sp1).length ≠ 0 := by simp
  simp only [trim_str, if_neg hlen, hstart, hend]
  have e3 : (sp ++ m).length - sp.length + 1 = (m ++ [b]).length := by simp
  rw [e3, List.append_assoc, List.drop_left, List.take_left,
    if_neg (Nat.not_le.mpr hfit)]
  exact realloc_string_fits (m ++ [b]) _ (by simp) hfit

set_option maxRecDepth 100000 in
/-- The `realloc` of `del_double` gives the terminator back: of 24 letters followed by
100 tabs the 24 letters are kept, the chunk of 125 bytes is split behind the 24 bytes
of the new block, and the terminator at index 24 is overwritten. -/
theorem del_double_terminator_given_back :
    del_double (List.replicate 24 'a' ++ List.replicate 100 '\t') 124 = .fault := by
  decide

/-! ## Theorems on the normalizer (C1, C2) -/

/-- C1 (the code at the spec's witness): the line `"  ls   -la  "` is normalized by
`trim_str` followed by `del_double` to `"ls   -la"`, the run of three spaces intact,
not to `"ls -la"`: `isprint(' ')` holds, so the second branch of `del_double` keeps
the space that the first branch refused. -/
theorem C1_del_double_keeps_space_runs :
    normalize "  ls   -la  ".toList = .ok (some "ls   -la".toList)
      ∧ normalize "  ls   -la  ".toList ≠ .ok (some "ls -la".toList) := by
  decide

/-- C2 as stated fails: the line `"\t a"` has a character that is not a space, its
normalization is `" a"`, and the normalization of `" a"` is `"a"`. -/
theorem C2_counterexample :
    (∃ c ∈ "\t a".toList, c ≠ ' ')
      ∧ normalize "\t a".toList = .ok (some " a".toList)
      ∧ normalize " a".toList = .ok (some "a".toList)
      ∧ normalize " a".toList ≠ normalize "\t a".toList := by
  decide

/-- C2 amended: normalization is idempotent on every line `x` whose first and last
characters other than the space (`a` and `b`, with `x = sp ++ mid ++ sp1`, `sp` and
`sp1` spaces only, `mid` from `a` to `b`) are printable, when the trimmed line `mid`
and the normalized line each have a length at which the terminator lies inside the
block `malloc` hands out (any length but 24, 40, 56, ...): `normalize x` is some `y`
and `normalize y = y`. -/
theorem C2_normalize_idempotent (x sp mid sp1 : Str) (a b : Char)
    (hx : x = sp ++ mid ++ sp1) (hsp : ∀ c ∈ sp, c = ' ') (hsp1 : ∀ c ∈ sp1, c = ' ')
    (ha : mid.head? = some a) (hb : mid.getLast? = some b)
    (hna : a ≠ ' ') (hnb : b ≠ ' ') (hpa : isprint a = true) (hpb : isprint b = true)
    (hfit1 : mid.length < malloc_usable mid.length)
    (hfit2 : (del_double_loop false mid).length
      < malloc_usable (del_double_loop false mid).length) :
    ∃ y, normalize x = .ok (some y) ∧ normalize y = .ok (some y) := by
  obtain ⟨m, hm⟩ : ∃ m, mid = m ++ [b] := by
    rcases List.eq_nil_or_concat mid with h | ⟨m, c, h⟩
    · rw [h] at hb; simp at hb
    · rw [h] at hb
      simp at hb
      exact ⟨m, by rw [h, hb]; simp⟩
  subst hm
  subst hx
  obtain ⟨t, ht⟩ : ∃ t, m ++ [b] = a :: t := by
    cases hm : m ++ [b] with
    | nil => simp at hm
    | cons c t => rw [hm] at ha; simp at ha; exact ⟨t, by rw [ha]⟩
  obtain ⟨z, hz⟩ := del_double_loop_last m b hnb hpb false
  rw [hz] at hfit2
  have hhead : (z ++ [b]).head? = some a := by
    rw [← hz, ht, del_double_loop_keep false a t hna hpa]; rfl
  have hidem : del_double_loop false (z ++ [b]) = z ++ [b] := by
    rw [← hz, del_double_loop_idem]
  refine ⟨z ++ [b], ?_, ?_⟩
  · simp only [normalize, trim_str_mid sp m sp1 a b hsp hsp1 ha hna hnb hfit1, del_double, hz]
    exact realloc_string_fits (z ++ [b]) _ (by simp) hfit2
  · have htrim := trim_str_mid [] z [] a b (by simp) (by simp) hhead hna hnb hfit2
    simp only [List.nil_append, List.append_nil] at htrim
    simp only [normalize, htrim, del_double, hidem]
    exact realloc_string_fits (z ++ [b]) _ (by simp) hfit2

/-- C2 amended at the line `"  ls   -la  "`. -/
theorem C2_normalize_idempotent_witness :
    ∃ y, normalize "  ls   -la  ".toList = .ok (some y) ∧ normalize y = .ok (some y) :=
  C2_normalize_idempotent "  ls   -la  ".toList "  ".toList "ls   -la".toList "  ".toList
    'l' 'a' (by decide) (by decide) (by decide) (by decide) (by decide) (by decide)
    (by decide) (by decide) (by decide) (by decide) (by decide)

/-! ## Lemmas on the tokenizer -/

/-- Storing into the first free slot of a vector whose tokens are contiguous. -/
theorem push_free (done : List Str) (m : Nat) (t : Str) :
    push (done.map some ++ List.replicate (m + 1) none) (some t) done.length
      = .ok (NO_ERRORS, (done ++ [t]).map some ++ List.replicate m none) := by
  have h1 : (done.map some ++ List.replicate (m + 1) (none : Option Str))[done.length]?
      = some none := by
    rw [List.getElem?_append_right (by simp)]
    simp [List.replicate_succ]
  have h2 : (done.map some ++ List.replicate (m + 1) (none : Option Str)).set done.length (some t)
      = (done ++ [t]).map some ++ List.replicate m none := by
    rw [List.set_append_right _ _ (by simp)]
    simp [List.replicate_succ]
  simp only [push, h1, h2]

/-- The tokens of a vector whose tokens are contiguous. -/
theorem tokens_contiguous (done : List Str) (m : Nat) :
    tokens (done.map some ++ List.replicate m none) = done := by
  induction done with
  | nil =>
    induction m with
    | zero => rfl
    | succ m ih => simp [tokens, List.replicate_succ]
  | cons t done ih => simp [tokens]

/-- One iteration of the loop of `split_tokens` on a separator. -/
theorem split_tokens_loop_sep (c : Char) (rest buf : Str) (j : Nat) (args args1 : Slots)
    (hb : buf.length < DEF_SIZ) (hsep : c = ' ' ∨ c = END_LINE ∨ c = END_STR)
    (hpush : push args (some buf) j = .ok (NO_ERRORS, args1)) :
    split_tokens_loop (c :: rest) buf j args = split_tokens_loop rest [] (j + 1) args1 := by
  simp only [split_tokens_loop, if_pos hb, if_pos hsep, hpush, ne_eq, not_true_eq_false,
    if_false]

/-- One iteration of the loop of `split_tokens` on a character of a token. -/
theorem split_tokens_loop_char (c : Char) (rest buf : Str) (j : Nat) (args : Slots)
    (hb : buf.length < DEF_SIZ) (hsep : ¬ (c = ' ' ∨ c = END_LINE ∨ c = END_STR)) :
    split_tokens_loop (c :: rest) buf j args = split_tokens_loop rest (buf ++ [c]) j args := by
  simp only [split_tokens_loop, if_pos hb, if_neg hsep]

/-- The loop of `split_tokens` stores the pieces of the line between single spaces,
as long as each piece fits the token buffer and the vector has room. -/
theorem split_tokens_loop_spec (l : Str) :
    ∀ (buf : Str) (done : List Str) (m : Nat) (first : Str) (others : List Str),
      (∀ c ∈ l, c ≠ '\n' ∧ c ≠ '\x00') →
      l.splitOn ' ' = first :: others →
      (buf ++ first).length < DEF_SIZ →
      (∀ t ∈ others, t.length < DEF_SIZ) →
      others.length + 1 ≤ m →
      split_tokens_loop (l ++ [END_STR]) buf done.length
          (done.map some ++ List.replicate m none)
        = .ok (NO_ERRORS, (done ++ (buf ++ first) :: others).map some
            ++ List.replicate (m - (others.length + 1)) none) := by
  induction l with
  | nil =>
    intro buf done m first others _ hs hb _ hm
    simp at hs
    obtain ⟨hf, ho⟩ := hs
    subst hf
    subst ho
    obtain ⟨k, rfl⟩ : ∃ k, m = k + 1 := ⟨m - 1, by omega⟩
    simp only [List.append_nil] at hb
    have hsep : (END_STR = ' ' ∨ END_STR = END_LINE ∨ END_STR = END_STR) :=
      Or.inr (Or.inr rfl)
    rw [List.nil_append, split_tokens_loop_sep END_STR [] buf done.length _ _ hb hsep
      (push_free done k buf)]
    simp [split_tokens_loop]
  | cons c t ih =>
    intro buf done m first others hc hs hb ho hm
    have hct : ∀ d ∈ t, d ≠ '\n' ∧ d ≠ '\x00' := fun d hd => hc d (by simp [hd])
    obtain ⟨hcn, hcz⟩ := hc c (by simp)
    obtain ⟨f, o, hfo⟩ : ∃ f o, t.splitOn ' ' = f :: o := by
      cases h : t.splitOn ' ' with
      | nil => exact absurd h (List.splitOnP_ne_nil _ t)
      | cons f o => exact ⟨f, o, rfl⟩
    by_cases hsp : c = ' '
    · subst hsp
      have hsplit : (' ' :: t).splitOn ' ' = [] :: t.splitOn ' ' := by
        simp [List.splitOn]
      rw [hsplit, hfo] at hs
      simp at hs
      obtain ⟨hf, ho2⟩ := hs
      subst hf
      subst ho2
      simp only [List.append_nil] at hb
      obtain ⟨k, rfl⟩ : ∃ k, m = k + 1 := ⟨m - 1, by omega⟩
      have hsep : (' ' = ' ' ∨ ' ' = END_LINE ∨ ' ' = END_STR) := Or.inl rfl
      have hstep := ih [] (done ++ [buf]) k f o hct hfo
        (by simpa using ho f (by simp)) (fun x hx => ho x (by simp [hx]))
        (by simp at hm; omega)
      simp only [List.length_append, List.length_singleton] at hstep
      rw [List.cons_append, split_tokens_loop_sep ' ' _ buf done.length _ _ hb hsep
        (push_free done k buf), hstep]
      simp
    · have hsplit : (c :: t).splitOn ' ' = (c :: f) :: o := by
        have : (c :: t).splitOn ' ' = (t.splitOn ' ').modifyHead (List.cons c) := by
          simp [List.splitOn, hsp]
        rw [this, hfo]
        rfl
      rw [hsplit] at hs
      simp at hs
      obtain ⟨hf, ho2⟩ := hs
      subst hf
      subst ho2
      have hsep : ¬ (c = ' ' ∨ c = END_LINE ∨ c = END_STR) := by
        simp [hsp, END_LINE, END_STR, hcn, hcz]
      have hbuf : buf.length < DEF_SIZ := by
        simp at hb; omega
      have hstep := ih (buf ++ [c]) done m f o hct hfo (by simpa using hb) ho hm
      rw [List.cons_append, split_tokens_loop_char c _ buf done.length _ hbuf hsep, hstep]
      simp

/-! ## Theorems on the tokenizer (C3, C4, C5) -/

set_option maxRecDepth 100000 in
/-- C3 as stated fails: the line of 128 letters `a` is a normalized line, and
`split_tokens` stores no token for it (the loop leaves when the token buffer is
full), so joining the stored tokens gives the empty line. -/
theorem C3_counterexample :
    normalize (List.replicate 128 'a') = .ok (some (List.replicate 128 'a'))
      ∧ split_tokens (some (List.replicate 128 'a')) (init MAX_LINE)
          = .ok (NO_ERRORS, init MAX_LINE)
      ∧ [' '].intercalate (tokens (init MAX_LINE)) ≠ List.replicate 128 'a' := by
  decide

/-- C3 amended: for every line with no newline that has at most 80 tokens, each
shorter than 128 characters (the tokens being the pieces between single spaces),
`split_tokens` returns `NO_ERRORS`, the tokens it stores are these pieces in index
order, and joining them with single spaces reproduces the line exactly. -/
theorem C3_split_tokens_roundtrip (line : Str)
    (hchar : ∀ c ∈ line, c ≠ '\n' ∧ c ≠ '\x00')
    (hlen : ∀ t ∈ line.splitOn ' ', t.length < DEF_SIZ)
    (hcount : (line.splitOn ' ').length ≤ MAX_LINE) :
    ∃ args, split_tokens (some line) (init MAX_LINE) = .ok (NO_ERRORS, args)
      ∧ tokens args = line.splitOn ' '
      ∧ [' '].intercalate (tokens args) = line := by
  obtain ⟨f, o, hfo⟩ : ∃ f o, line.splitOn ' ' = f :: o := by
    cases h : line.splitOn ' ' with
    | nil => exact absurd h (List.splitOnP_ne_nil _ line)
    | cons f o => exact ⟨f, o, rfl⟩
  rw [hfo] at hlen hcount
  have h := split_tokens_loop_spec line [] [] MAX_LINE f o hchar hfo
    (by simpa using hlen f (by simp)) (fun x hx => hlen x (by simp [hx]))
    (by simpa using hcount)
  simp only [List.map_nil, List.nil_append, List.length_nil] at h
  refine ⟨List.map some (f :: o) ++ List.replicate (MAX_LINE - (o.length + 1)) none,
    ?_, ?_, ?_⟩
  · simpa [split_tokens, init] using h
  · rw [tokens_contiguous, hfo]
  · rw [tokens_contiguous, ← hfo, List.intercalate_splitOn]

/-- C3 amended at the line `"ls -la"`. -/
theorem C3_split_tokens_roundtrip_witness :
    ∃ args, split_tokens (some "ls -la".toList) (init MAX_LINE) = .ok (NO_ERRORS, args)
      ∧ tokens args = "ls -la".toList.splitOn ' '
      ∧ [' '].intercalate (tokens args) = "ls -la".toList :=
  C3_split_tokens_roundtrip "ls -la".toList (by decide) (by decide) (by decide)

/-- C4 (the code at the spec's scenario): the line `"  ls   -la  "`, normalized by
`trim_str` and `del_double` and tokenized by `split_tokens`, leaves the four tokens
`"ls"`, `""`, `""`, `"-la"` in the argument vector: two stored tokens are the empty
string. -/
theorem C4_empty_tokens_stored :
    normalize "  ls   -la  ".toList = .ok (some "ls   -la".toList)
      ∧ split_tokens (some "ls   -la".toList) (init MAX_LINE)
          = .ok (NO_ERRORS, [some "ls".toList, some [], some [], some "-la".toList]
              ++ List.replicate 76 none)
      ∧ [] ∈ tokens ([some "ls".toList, some [], some [], some "-la".toList]
              ++ List.replicate 76 none) := by
  decide

set_option maxRecDepth 100000 in
/-- C5 (the code at two lines of one-letter tokens): with 81 tokens `split_tokens`
calls `push` at index 80, outside the 80 slots of the vector, and with 80 tokens it
fills every slot, leaving no empty slot to terminate the vector. -/
theorem C5_split_tokens_exceeds_capacity :
    normalize ([' '].intercalate (List.replicate 81 ['a']))
        = .ok (some ([' '].intercalate (List.replicate 81 ['a'])))
      ∧ split_tokens (some ([' '].intercalate (List.replicate 81 ['a']))) (init MAX_LINE)
        = .fault
      ∧ split_tokens (some ([' '].intercalate (List.replicate 80 ['a']))) (init MAX_LINE)
        = .ok (NO_ERRORS, List.replicate 80 (some ['a']))
      ∧ none ∉ List.replicate 80 (some ['a']) := by
  decide

/-! ## Theorems on the classifier (C6, C7) -/

/-- C6 (the code at the lines `"!"` and `"! 3"`): `check_code` passes the pointer
`args+1` to `check_content` together with the full length 80, so the scan reads
`args[80]`, one slot past the vector, both when no `args[1]` exists and when it does:
neither `INVALID_ARGUMENT` nor the table index 3 is a defined result. -/
theorem C6_check_code_reads_past_vector :
    split_tokens (some "!".toList) (init MAX_LINE)
        = .ok (NO_ERRORS, some "!".toList :: List.replicate 79 none)
      ∧ check_code (some "!".toList :: List.replicate 79 none) cmds MAX_LINE cmds_len = .fault
      ∧ split_tokens (some "! 3".toList) (init MAX_LINE)
        = .ok (NO_ERRORS, some "!".toList :: some "3".toList :: List.replicate 78 none)
      ∧ check_code (some "!".toList :: some "3".toList :: List.replicate 78 none)
          cmds MAX_LINE cmds_len = .fault
      ∧ check_content (some "!".toList :: List.replicate 79 none)
          (new_arr (some "!".toList :: List.replicate 79 none) MAX_LINE 1) (MAX_LINE - 1)
          = .ok 0 := by
  decide

set_option maxRecDepth 100000 in
/-- C7 (the code at the line of 128 letters `a`): `split_tokens` returns `NO_ERRORS`
with no token stored, and `check_code` on that empty vector passes the `NULL` of
`args[0]` to `strcmp`: it faults instead of returning a classification. -/
theorem C7_check_code_faults_on_empty_vector :
    normalize (List.replicate 128 'a') = .ok (some (List.replicate 128 'a'))
      ∧ split_tokens (some (List.replicate 128 'a')) (init MAX_LINE)
          = .ok (NO_ERRORS, init MAX_LINE)
      ∧ check_code (init MAX_LINE) cmds MAX_LINE cmds_len = .fault := by
  decide

/-! ## Lemmas on the history -/

/-- Recording commands from a contiguous history with enough free slots. -/
theorem record_all_spec (es : List Str) :
    ∀ (done : List Str) (m : Nat), es.length ≤ m →
      record_all es (done.map some ++ List.replicate m none) done.length
        = .ok (NO_ERRORS, (done ++ es).map some ++ List.replicate (m - es.length) none,
            done.length + es.length) := by
  induction es with
  | nil => intro done m _; simp [record_all]
  | cons e rest ih =>
    intro done m hm
    obtain ⟨k, rfl⟩ : ∃ k, m = k + 1 := ⟨m - 1, by simp at hm; omega⟩
    have hstep := ih (done ++ [e]) k (by simp at hm; omega)
    simp only [List.length_append, List.length_singleton] at hstep
    simp only [record_all, push_free done k e, ne_eq, not_true_eq_false, if_false, hstep]
    simp
    omega

/-- The unsigned difference `chrono_pos - k` for an offset within the cursor. -/
theorem size_sub_le (n k : Nat) (hk : k ≤ n) (hn : n ≤ MAX_CHRONO) :
    size_sub n (k : Int) = n - k := by
  simp only [MAX_CHRONO] at hn
  simp only [size_sub]
  omega

/-! ## Theorems on the history (C8, C9) -/

/-- C8: after recording the entries `es = e1..en` (`n ≤ 128`) into the empty history
with `push` at the cursor, the cursor advancing by one each time, every `push` returns
`NO_ERRORS`, the cursor is `n`, and for every `k` with `1 ≤ k ≤ n` the lookup
`get(chrono, cursor, cursor - k)` returns the entry `e(n-k+1)`, which is `es[n-k]`. -/
theorem C8_recall_by_offset (es : List Str) (hn : es.length ≤ MAX_CHRONO) :
    ∃ chrono, record_all es (init MAX_CHRONO) 0 = .ok (NO_ERRORS, chrono, es.length)
      ∧ ∀ k : Nat, 1 ≤ k → k ≤ es.length →
          ∃ e, es[es.length - k]? = some e
            ∧ get chrono es.length (size_sub es.length (k : Int)) = .ok (some e) := by
  have h := record_all_spec es [] MAX_CHRONO hn
  simp only [List.map_nil, List.nil_append, List.length_nil, Nat.zero_add] at h
  refine ⟨_, h, ?_⟩
  intro k h1 h2
  have hlt : es.length - k < es.length := by omega
  have hidx : (es.map some ++ List.replicate (MAX_CHRONO - es.length) (none : Option Str))[es.length - k]?
      = some (some (es.get ⟨es.length - k, hlt⟩)) := by
    rw [List.getElem?_append_left (by simpa using hlt)]
    simp [List.getElem?_eq_getElem hlt]
  refine ⟨es.get ⟨es.length - k, hlt⟩, List.getElem?_eq_getElem hlt, ?_⟩
  simp only [get, size_sub_le es.length k h2 hn, ge_iff_le, if_neg (Nat.not_le.mpr hlt), hidx]

/-- C8 at the entries `"ls"`, `"pwd"`, `"date"`. -/
theorem C8_recall_by_offset_witness :
    ∃ chrono, record_all ["ls".toList, "pwd".toList, "date".toList] (init MAX_CHRONO) 0
        = .ok (NO_ERRORS, chrono, 3)
      ∧ ∀ k : Nat, 1 ≤ k → k ≤ 3 →
          ∃ e, ["ls".toList, "pwd".toList, "date".toList][3 - k]? = some e
            ∧ get chrono 3 (size_sub 3 (k : Int)) = .ok (some e) :=
  C8_recall_by_offset ["ls".toList, "pwd".toList, "date".toList] (by decide)

/-- C9: for every cursor `n ≤ 128` and every `int` offset `k > n`, the index `n - k`
computed modulo 2^64 is at least `n`, so `get(chrono, n, n - k)` returns `NULL`
whatever the history array holds, even one with no slot at all: no slot is read. -/
theorem C9_recall_past_start (chrono : Slots) (n : Nat) (k : Int)
    (hn : n ≤ MAX_CHRONO) (hk : (n : Int) < k) (hint : k ≤ 2147483647) :
    get chrono n (size_sub n k) = .ok none ∧ get [] n (size_sub n k) = .ok none := by
  have hge : n ≤ size_sub n k := by
    simp only [MAX_CHRONO] at hn
    simp only [size_sub]
    omega
  simp [get, hge]

/-- C9 at cursor 2 and offset 3, on a history holding two entries. -/
theorem C9_recall_past_start_witness :
    get (some "ls".toList :: some "pwd".toList :: List.replicate 126 none) 2 (size_sub 2 3)
        = .ok none
      ∧ get [] 2 (size_sub 2 3) = .ok none :=
  C9_recall_past_start (some "ls".toList :: some "pwd".toList :: List.replicate 126 none) 2 3
    (by decide) (by decide) (by decide)

/-! ## Lemmas on the REPL loop -/

/-- With a positive lower bound `max`, the loop of `history` started inside the array
ends inside it. -/
theorem history_loop_ok (chrono : Slots) (max : Nat) (hmax : 1 ≤ max) :
    ∀ (i j : Nat), i < chrono.length → ∃ lines, history_loop chrono max i j = .ok lines := by
  intro i
  induction i with
  | zero =>
    intro j _
    exact ⟨[], by simp only [history_loop, ge_iff_le, if_neg (by omega : ¬ max ≤ 0)]⟩
  | succ i ih =>
    intro j hi
    by_cases hge : max ≤ i + 1
    · cases hslot : chrono[i + 1]? with
      | none =>
        rw [List.getElem?_eq_none_iff] at hslot
        omega
      | some slot =>
        cases slot with
        | none => exact ⟨[], by simp only [history_loop, ge_iff_le, if_pos hge, hslot]⟩
        | some e =>
          obtain ⟨lines, hl⟩ := ih (j + 1) (by omega)
          exact ⟨(j, e) :: lines, by simp only [history_loop, ge_iff_le, if_pos hge, hslot, hl]⟩
    · exact ⟨[], by simp only [history_loop, ge_iff_le, if_neg hge]⟩

/-- The case `history` of `intern_code`: the command is stored at the cursor and the
history is listed. -/
theorem intern_code_history (args : Slots) (len : Nat) (chrono : Slots) (pos : Nat)
    (t : Str) (lines : List (Nat × Str)) (h0 : args[0]? = some (some t))
    (hfree : chrono[pos]? = some none)
    (hh : history (chrono.set pos (some t)) pos 10 = .ok lines) :
    intern_code errs errs_len args len 1 chrono pos
      = .ok ⟨NO_ERRORS, chrono.set pos (some t), "", lines⟩ := by
  have f4 : error_handler errs errs_len NO_ERRORS = .ok (NO_ERRORS, "") := by decide
  have hpush : push chrono (some t) pos = .ok (NO_ERRORS, chrono.set pos (some t)) := by
    simp only [push, hfree]
  have n1 : ¬ ((1 : Int) = 0) := by decide
  have n2 : ¬ (NO_ERRORS = EXIT) := by decide
  simp only [intern_code, if_neg n1, if_true, h0, Res.ok_bind, hpush, f4, if_neg n2, hh]

/-- Lines 149-177 of `main` for the built-in `history`. -/
theorem main_intern_history (chrono : Slots) (pos : Nat) (args : Slots) (out : String)
    (t : Str) (lines : List (Nat × Str)) (h0 : args[0]? = some (some t))
    (hfree : chrono[pos]? = some none)
    (hh : history (chrono.set pos (some t)) pos 10 = .ok lines) :
    main_intern ⟨none, chrono, pos⟩ args 1 out
      = .ok ⟨.again ⟨none, chrono.set pos (some t), pos + 1⟩, out ++ "" ++ "", lines, none⟩ := by
  have f4 : error_handler errs errs_len NO_ERRORS = .ok (NO_ERRORS, "") := by decide
  have n2 : ¬ (NO_ERRORS = EXIT) := by decide
  have n3 : ¬ (NO_ERRORS = 0) := by decide
  have n4 : ¬ (NO_ERRORS > 0) := by decide
  simp only [main_intern, intern_code_history args MAX_LINE chrono pos t lines h0 hfree hh,
    Res.ok_bind, f4, if_neg n2, if_neg n3, if_neg n4]

/-- Lines 149-177 of `main` for the built-in `!!` when the lookup finds an entry. -/
theorem main_intern_recall_last (chrono : Slots) (pos : Nat) (args : Slots) (out : String)
    (w : Str) (hget : get chrono pos (size_sub pos 1) = .ok (some w)) :
    main_intern ⟨none, chrono, pos⟩ args 2 out
      = .ok ⟨.again ⟨some w, chrono, pos⟩, out ++ "" ++ "", [], none⟩ := by
  have f6 : error_handler errs errs_len 1 = .ok (NO_ERRORS, "") := by decide
  have n1 : ¬ ((2 : Int) = 0) := by decide
  have n2 : ¬ ((2 : Int) = 1) := by decide
  have n3 : ¬ (NO_ERRORS = EXIT) := by decide
  have n4 : ¬ ((1 : Int) = 0) := by decide
  have p1 : (1 : Int) > 0 := by decide
  simp only [main_intern, intern_code, if_neg n1, if_neg n2, if_true, Res.ok_bind, f6,
    if_neg n3, if_neg n4, if_pos p1, hget]

/-- The built-in `history` run by `main` from a state with more than 10 recorded
commands and a free slot at the cursor: the command itself is stored at the cursor
and the cursor advances. -/
theorem main_iteration_history (chrono : Slots) (pos : Nat) (p : Proc)
    (hpos : 10 < pos) (hfree : chrono[pos]? = some none) :
    ∃ out lines, main_iteration ⟨none, chrono, pos⟩ (some "history".toList) p
      = .ok ⟨.again ⟨none, chrono.set pos (some "history".toList), pos + 1⟩, out, lines,
          none⟩ := by
  have f1 : trim_str "history".toList "history".toList.length
      = .ok (some "history".toList) := by decide
  have f2 : del_double "history".toList "history".toList.length
      = .ok (some "history".toList) := by decide
  have f3 : split_tokens (some "history".toList) (init MAX_LINE)
      = .ok (NO_ERRORS, some "history".toList :: List.replicate 79 none) := by decide
  have f4 : error_handler errs errs_len NO_ERRORS = .ok (NO_ERRORS, "") := by decide
  have f5 : check_code (some "history".toList :: List.replicate 79 none) cmds MAX_LINE cmds_len
      = .ok 1 := by decide
  have f6 : error_handler errs errs_len 1 = .ok (NO_ERRORS, "") := by decide
  have n2 : ¬ (NO_ERRORS = EXIT) := by decide
  have n5 : ¬ ((1 : Int) = NO_ERRORS) := by decide
  have hlt : pos < (chrono.set pos (some "history".toList)).length := by
    rw [List.length_set]
    by_contra hge
    rw [List.getElem?_eq_none (by omega)] at hfree
    exact absurd hfree (by simp)
  obtain ⟨lines, hl⟩ := history_loop_ok (chrono.set pos (some "history".toList)) (pos - 10)
    (by omega) pos 0 hlt
  have hhist : history (chrono.set pos (some "history".toList)) pos 10 = .ok lines := by
    simp only [history, if_neg (by omega : ¬ pos ≤ 10), hl]
  refine ⟨"" ++ "" ++ "" ++ "", lines, ?_⟩
  simp only [main_iteration, main_process, f1, f2, f3, f4, f5, f6, Res.ok_bind, if_neg n2,
    if_neg n5]
  exact main_intern_history chrono pos _ _ "history".toList lines rfl hfree hhist

/-- The built-in `!!` run by `main` when the slot before the cursor holds `w`: `w` is
made the command of the next iteration, the history is unchanged. -/
theorem main_iteration_recall_last (chrono : Slots) (pos : Nat) (p : Proc) (w : Str)
    (hget : get chrono pos (size_sub pos 1) = .ok (some w)) :
    ∃ out, main_iteration ⟨none, chrono, pos⟩ (some "!!".toList) p
      = .ok ⟨.again ⟨some w, chrono, pos⟩, out, [], none⟩ := by
  have f1 : trim_str "!!".toList "!!".toList.length = .ok (some "!!".toList) := by
    decide
  have f2 : del_double "!!".toList "!!".toList.length = .ok (some "!!".toList) := by
    decide
  have f3 : split_tokens (some "!!".toList) (init MAX_LINE)
      = .ok (NO_ERRORS, some "!!".toList :: List.replicate 79 none) := by decide
  have f4 : error_handler errs errs_len NO_ERRORS = .ok (NO_ERRORS, "") := by decide
  have f5 : check_code (some "!!".toList :: List.replicate 79 none) cmds MAX_LINE cmds_len
      = .ok 2 := by decide
  have f6 : error_handler errs errs_len 2 = .ok (NO_ERRORS, "") := by decide
  have n2 : ¬ (NO_ERRORS = EXIT) := by decide
  have n5 : ¬ ((2 : Int) = NO_ERRORS) := by decide
  refine ⟨"" ++ "" ++ "" ++ "", ?_⟩
  simp only [main_iteration, main_process, f1, f2, f3, f4, f5, f6, Res.ok_bind, if_neg n2,
    if_neg n5]
  exact main_intern_recall_last chrono pos _ _ w hget

/-! ## Theorems on the REPL loop (C10) -/

set_option maxRecDepth 100000 in
/-- C10 as stated fails: from the history holding eleven times `"ls"` (cursor 11, the
most recent command `c = "ls"`), the line `"history"` stores `"history"` at slot 11
and moves the cursor to 12, and the line `"!!"` then makes `"history"`, not `"ls"`,
the command of the next iteration. -/
theorem C10_counterexample :
    get (List.replicate 11 (some "ls".toList) ++ List.replicate 117 none) 11 (size_sub 11 1)
        = .ok (some "ls".toList)
      ∧ main_iteration ⟨none, List.replicate 11 (some "ls".toList) ++ List.replicate 117 none, 11⟩
          (some "history".toList) .parent
        = .ok ⟨.again ⟨none, List.replicate 11 (some "ls".toList) ++ some "history".toList
              :: List.replicate 116 none, 12⟩, "",
            (0, "history".toList) :: (List.range 10).map (fun i => (i + 1, "ls".toList)), none⟩
      ∧ main_iteration ⟨none, List.replicate 11 (some "ls".toList) ++ some "history".toList
              :: List.replicate 116 none, 12⟩ (some "!!".toList) .parent
        = .ok ⟨.again ⟨some "history".toList, List.replicate 11 (some "ls".toList)
              ++ some "history".toList :: List.replicate 116 none, 12⟩, "", [], none⟩
      ∧ "history".toList ≠ "ls".toList := by
  decide

/-- C10 amended: for every history state (an array of 128 slots) with more than 10
recorded commands and a free slot at the cursor, processing the line `"history"` stores `"history"` at the
cursor and advances the cursor, and processing the line `"!!"` next re-injects
`"history"` itself as the next command to run, whatever command was recorded before
it; the history is not changed by `"!!"`. -/
theorem C10_history_then_recall (s : Shell) (p q : Proc)
    (hcmd : s.actual_cmd = none) (hlen : s.chrono.length = MAX_CHRONO)
    (hpos : 10 < s.chrono_pos) (hfree : s.chrono[s.chrono_pos]? = some none) :
    ∃ st1 st2,
      main_iteration s (some "history".toList) p = .ok st1
        ∧ st1.next = .again ⟨none, s.chrono.set s.chrono_pos (some "history".toList),
            s.chrono_pos + 1⟩
        ∧ main_iteration ⟨none, s.chrono.set s.chrono_pos (some "history".toList),
            s.chrono_pos + 1⟩ (some "!!".toList) q = .ok st2
        ∧ st2.next = .again ⟨some "history".toList,
            s.chrono.set s.chrono_pos (some "history".toList), s.chrono_pos + 1⟩ := by
  obtain ⟨ac, chrono, pos⟩ := s
  simp only [MAX_CHRONO] at hcmd hlen hpos hfree
  subst hcmd
  obtain ⟨out1, lines, h1⟩ := main_iteration_history chrono pos p hpos hfree
  have hlt : pos < chrono.length := by
    by_contra hge
    rw [List.getElem?_eq_none (by omega)] at hfree
    exact absurd hfree (by simp)
  have hsub : size_sub (pos + 1) 1 = pos := by
    simp only [size_sub]
    omega
  have hget : get (chrono.set pos (some "history".toList)) (pos + 1) (size_sub (pos + 1) 1)
      = .ok (some "history".toList) := by
    simp [get, hsub, hlt]
  obtain ⟨out2, h2⟩ := main_iteration_recall_last (chrono.set pos (some "history".toList))
    (pos + 1) q "history".toList hget
  exact ⟨_, _, h1, rfl, h2, rfl⟩

set_option maxRecDepth 100000 in
/-- C10 amended at the history holding eleven times `"ls"`. -/
theorem C10_history_then_recall_witness :
    ∃ st1 st2,
      main_iteration ⟨none, List.replicate 11 (some "ls".toList) ++ List.replicate 117 none, 11⟩
          (some "history".toList) .parent = .ok st1
        ∧ st1.next = .again ⟨none, (List.replicate 11 (some "ls".toList)
            ++ List.replicate 117 none).set 11 (some "history".toList), 11 + 1⟩
        ∧ main_iteration ⟨none, (List.replicate 11 (some "ls".toList)
            ++ List.replicate 117 none).set 11 (some "history".toList), 11 + 1⟩
            (some "!!".toList) .parent = .ok st2
        ∧ st2.next = .again ⟨some "history".toList, (List.replicate 11 (some "ls".toList)
            ++ List.replicate 117 none).set 11 (some "history".toList), 11 + 1⟩ :=
  C10_history_then_recall
    ⟨none, List.replicate 11 (some "ls".toList) ++ List.replicate 117 none, 11⟩ .parent .parent
    rfl (by decide) (by decide) (by decide)

/-! ## Theorems on recall misses, listing and invalid lines (C11, C12, C13) -/

set_option maxRecDepth 100000 in
/-- C11 (the code at the line `"!!"` with nothing recorded, and at the spec's witness
`"!3"`): the recall miss writes the message of `GENERAL_ERROR`, not the one of
`EMPTY_HISTORY`, dispatches nothing and leaves the history as it was; the line `"!3"`
is one token that is not in the table of built-ins, so it is recorded at slot 0 and
handed to `extern_code`. -/
theorem C11_recall_miss_reports_general_error :
    main_iteration Shell.start (some "!!".toList) .parent
        = .ok ⟨.again Shell.start, "Something unexpected happened\n", [], none⟩
      ∧ error_handler errs errs_len GENERAL_ERROR
        = .ok (EXIT, "Something unexpected happened\n")
      ∧ error_handler errs errs_len EMPTY_HISTORY = .ok (NO_ERRORS, "La history e' vuota\n")
      ∧ main_iteration Shell.start (some "!3".toList) .parent
        = .ok ⟨.again ⟨none, some "!3".toList :: List.replicate 127 none, 1⟩, "", [],
            some (some "!3".toList :: List.replicate 79 none)⟩ := by
  decide

set_option maxRecDepth 100000 in
/-- C12 (the code at a history of the twelve entries `a` .. `l`, last index 11, and
limit 10): `history` prints eleven lines, the entries at indices 11 down to 1, one
more than the limit; and on a history of one entry (last index 0) the loop goes on
below index 0 and reads outside the array. -/
theorem C12_history_prints_one_more :
    history ("abcdefghijkl".toList.map (fun c => some [c]) ++ List.replicate 116 none) 11 10
        = .ok [(0, ['l']), (1, ['k']), (2, ['j']), (3, ['i']), (4, ['h']), (5, ['g']),
            (6, ['f']), (7, ['e']), (8, ['d']), (9, ['c']), (10, ['b'])]
      ∧ ([(0, ['l']), (1, ['k']), (2, ['j']), (3, ['i']), (4, ['h']), (5, ['g']),
            (6, ['f']), (7, ['e']), (8, ['d']), (9, ['c']), (10, ['b'])]
          : List (Nat × Str)).length = 11
      ∧ history (some ['a'] :: List.replicate 127 none) 0 10 = .fault := by
  decide

/-- C13 (lines 149-177 of `main` for an invalid line, in every state): when
`check_code` has returned `INVALID_ARGUMENT`, and when it has returned 3 for the
vector of `"! abc"` so that `intern_code` returns `INVALID_ARGUMENT`, the stored
entries are unchanged but the write cursor `chrono_pos` is advanced by one. -/
theorem C13_invalid_line_advances_cursor (s : Shell) (out : String) :
    main_intern s (some "!".toList :: List.replicate 79 none) INVALID_ARGUMENT out
        = .ok ⟨.again ⟨none, s.chrono, s.chrono_pos + 1⟩, out ++ "" ++ "", [], none⟩
      ∧ main_intern s (some "!".toList :: some "abc".toList :: List.replicate 78 none) 3 out
        = .ok ⟨.again ⟨none, s.chrono, s.chrono_pos + 1⟩,
            out ++ "" ++ "Invalid Argument: An argument is invalid\n", [], none⟩ := by
  have f4 : error_handler errs errs_len NO_ERRORS = .ok (NO_ERRORS, "") := by decide
  have f5 : error_handler errs errs_len INVALID_ARGUMENT
      = .ok (NO_ERRORS, "Invalid Argument: An argument is invalid\n") := by decide
  have fa : atoi (some "abc".toList) = .ok 0 := by decide
  have n0 : ¬ (INVALID_ARGUMENT = 0) := by decide
  have n1 : ¬ (INVALID_ARGUMENT = 1) := by decide
  have n2 : ¬ (INVALID_ARGUMENT = 2) := by decide
  have n3 : ¬ (INVALID_ARGUMENT = 3) := by decide
  have m0 : ¬ ((3 : Int) = 0) := by decide
  have m1 : ¬ ((3 : Int) = 1) := by decide
  have m2 : ¬ ((3 : Int) = 2) := by decide
  have e1 : ¬ (NO_ERRORS = EXIT) := by decide
  have e2 : ¬ (NO_ERRORS = 0) := by decide
  have e3 : ¬ (NO_ERRORS > 0) := by decide
  have e4 : ¬ (INVALID_ARGUMENT > 0) := by decide
  have h1 : (some "!".toList :: some "abc".toList :: List.replicate 78 none)[1]?
      = some (some "abc".toList) := rfl
  constructor
  · simp only [main_intern, intern_code, if_neg n0, if_neg n1, if_neg n2, if_neg n3,
      Res.ok_bind, f4, if_neg e1, if_neg e2, if_neg e3]
  · simp only [main_intern, intern_code, if_neg m0, if_neg m1, if_neg m2, if_true, h1,
      Res.ok_bind, fa, f5, if_neg e1, if_neg n0, if_neg e4]

/-! ## Theorems on the error table (C16) -/

/-- C16: for every integer code `err`, `error_handler` over the table `errs` of `main`
returns a signal; the signal is `EXIT` exactly when `err` is `MEM_ERROR`, `FORK_ERROR`
or `GENERAL_ERROR`; and it is `NO_ERRORS` for `INPUT_ERROR`, `CMD_NOT_FOUND`,
`INVALID_ARGUMENT`, `EMPTY_HISTORY` and every non-negative code. -/
theorem C16_error_handler_fatality (err : Int) :
    ∃ r msg, error_handler errs errs_len err = .ok (r, msg)
      ∧ (r = EXIT ↔ (err = MEM_ERROR ∨ err = FORK_ERROR ∨ err = GENERAL_ERROR))
      ∧ ((err = INPUT_ERROR ∨ err = CMD_NOT_FOUND ∨ err = INVALID_ARGUMENT
            ∨ err = EMPTY_HISTORY ∨ 0 ≤ err) → r = NO_ERRORS) := by
  have key : 0 ≤ err ∨ err = -1 ∨ err = -2 ∨ err = -3 ∨ err = -4 ∨ err = -5 ∨ err = -6
      ∨ err = -7 ∨ err = -10
      ∨ (err < 0 ∧ err ≠ -1 ∧ err ≠ -2 ∧ err ≠ -3 ∧ err ≠ -4 ∧ err ≠ -5 ∧ err ≠ -6
          ∧ err ≠ -7 ∧ err ≠ -10) := by omega
  rcases key with h | rfl | rfl | rfl | rfl | rfl | rfl | rfl | rfl | h
  · refine ⟨NO_ERRORS, "", ?_, ?_, fun _ => rfl⟩
    · simp only [error_handler, ge_iff_le, if_pos h]
    · simp only [NO_ERRORS, EXIT, MEM_ERROR, FORK_ERROR, GENERAL_ERROR]
      omega
  · exact ⟨NO_ERRORS, _, rfl, by decide, by decide⟩
  · exact ⟨EXIT, _, rfl, by decide, by decide⟩
  · exact ⟨EXIT, _, rfl, by decide, by decide⟩
  · exact ⟨EXIT, _, rfl, by decide, by decide⟩
  · exact ⟨NO_ERRORS, _, rfl, by decide, by decide⟩
  · exact ⟨NO_ERRORS, _, rfl, by decide, by decide⟩
  · exact ⟨NO_ERRORS, _, rfl, by decide, by decide⟩
  · exact ⟨NO_ERRORS, _, rfl, by decide, by decide⟩
  · obtain ⟨hneg, h1, h2, h3, h4, h5, h6, h7, h10⟩ := h
    refine ⟨GENERAL_ERROR, "Something unexpected happened\n", ?_, ?_, ?_⟩
    · have hn : ¬ (err ≥ 0) := by omega
      simp [error_handler, error_handler_loop, errs, errs_len, hn, INPUT_ERROR, MEM_ERROR,
        FORK_ERROR, GENERAL_ERROR, CMD_NOT_FOUND, INVALID_ARGUMENT, EMPTY_HISTORY, NO_ERRORS,
        h1, h2, h3, h4, h5, h6, h7, h10]
    · simp only [NO_ERRORS, EXIT, MEM_ERROR, FORK_ERROR, GENERAL_ERROR]
      omega
    · simp only [INPUT_ERROR, CMD_NOT_FOUND, INVALID_ARGUMENT, EMPTY_HISTORY]
      omega

/-! ## Lemmas on the background marker -/

/-- The loop of `check_background` stops at the first free slot of a vector whose
tokens are contiguous, or at the end of the vector. -/
theorem check_background_loop_spec (toks : List Str) (m : Nat) :
    ∀ (d i fuel : Nat), i + d = toks.length → fuel + i = toks.length + m →
      check_background_loop (toks.map some ++ List.replicate m none) (toks.length + m) fuel i
        = .ok toks.length := by
  intro d
  induction d with
  | zero =>
    intro i fuel hi hf
    simp only [Nat.add_zero] at hi
    subst hi
    cases fuel with
    | zero => rfl
    | succ f =>
      have hm : 0 < m := by omega
      have hslot : (toks.map some ++ List.replicate m (none : Option Str))[toks.length]?
          = some none := by
        rw [List.getElem?_append_right (by simp)]
        simp [hm]
      have hlt : toks.length < toks.length + m := by omega
      simp only [check_background_loop, if_pos hlt, hslot]
  | succ d ih =>
    intro i fuel hi hf
    have hlt : i < toks.length := by omega
    obtain ⟨f, rfl⟩ : ∃ f, fuel = f + 1 := ⟨fuel - 1, by omega⟩
    have hslot : (toks.map some ++ List.replicate m (none : Option Str))[i]?
        = some (some (toks.get ⟨i, hlt⟩)) := by
      rw [List.getElem?_append_left (by simpa using hlt)]
      simp [List.getElem?_eq_getElem hlt]
    have hlt2 : i < toks.length + m := by omega
    simp only [check_background_loop, if_pos hlt2, hslot]
    exact ih (i + 1) f (by omega) (by omega)

/-- The result of `check_background` on a vector of 80 slots whose tokens are
contiguous: the index of the final token if its first character is `&`, else 0. -/
theorem check_background_spec (toks : List Str) (hne : toks ≠ [])
    (hlen : toks.length ≤ MAX_LINE) :
    check_background (toks.map some ++ List.replicate (MAX_LINE - toks.length) none) MAX_LINE
      = .ok (if charAt (toks.getLast hne) 0 = '&' then ((toks.length - 1 : Nat) : Int) else 0) := by
  have hloop := check_background_loop_spec toks (MAX_LINE - toks.length) toks.length 0 MAX_LINE
    (by omega) (by omega)
  have hsum : toks.length + (MAX_LINE - toks.length) = MAX_LINE := by omega
  rw [hsum] at hloop
  have hpos : 0 < toks.length := List.length_pos.mpr hne
  have hn0 : ¬ (toks.length = 0) := by omega
  have hslot : (toks.map some ++ List.replicate (MAX_LINE - toks.length) (none : Option Str))[toks.length - 1]?
      = some (some (toks.getLast hne)) := by
    rw [List.getElem?_append_left (by simp; omega)]
    simp [List.getLast_eq_getElem, List.getElem?_eq_getElem (by omega : toks.length - 1 < toks.length)]
  simp only [check_background, hloop, if_neg hn0, hslot]
  split <;> rfl

/-- The function `pop` on the final token of a vector that has a free slot behind it:
the token is removed, the others stay. -/
theorem pop_last (front : List Str) (t : Str) (m : Nat) :
    pop ((front ++ [t]).map some ++ List.replicate (m + 1) none) front.length
        (front.length + 1 + (m + 1))
      = .ok (NO_ERRORS, front.map some ++ List.replicate (m + 2) none) := by
  have hargs : (front ++ [t]).map some ++ List.replicate (m + 1) (none : Option Str)
      = front.map some ++ (some t :: none :: List.replicate m none) := by
    simp [List.replicate_succ]
  have h0 : (front.map some ++ (some t :: none :: List.replicate m (none : Option Str)))[front.length]?
      = some (some t) := by
    rw [List.getElem?_append_right (by simp)]
    simp
  have h1 : (front.map some ++ (some t :: none :: List.replicate m (none : Option Str)))[front.length + 1]?
      = some none := by
    rw [List.getElem?_append_right (by simp)]
    simp
  have hset : (front.map some ++ (some t :: none :: List.replicate m (none : Option Str))).set
      front.length none = front.map some ++ List.replicate (m + 2) none := by
    rw [List.set_append_right _ _ (by simp)]
    simp [List.replicate_succ]
  have h2 : (front.map some ++ List.replicate (m + 2) (none : Option Str))[front.length + 1]?
      = some none := by
    rw [List.getElem?_append_right (by simp)]
    simp
  have hfuel : front.length + 1 + (m + 1) - 1 - front.length = m + 1 := by omega
  have hlt : front.length < front.length + 1 + (m + 1) - 1 := by omega
  rw [hargs]
  simp only [pop, h0, hfuel, pop_loop, if_pos hlt, h1, hset]
  cases m with
  | zero => simp only [pop_loop]
  | succ k =>
    have hlt2 : front.length + 1 < front.length + 1 + (k + 1 + 1) - 1 := by omega
    simp only [pop_loop, if_pos hlt2, h2]

/-! ## Theorems on the background marker (C14, C15) -/

/-- C14 as stated fails in both directions: for the vector `ls`, `&x` the result of
`check_background` is 1, non-zero, although the final token is not `"&"`; and for the
vector of the single token `&` the result is 0. -/
theorem C14_counterexample :
    check_background (some "ls".toList :: some "&x".toList :: List.replicate 78 none) MAX_LINE
        = .ok 1
      ∧ "&x".toList ≠ "&".toList
      ∧ check_background (some "&".toList :: List.replicate 79 none) MAX_LINE = .ok 0 := by
  decide

/-- C14 amended: for every non-empty argument vector (80 slots, the tokens `toks`
contiguous from index 0), `check_background` returns a result, and the result is
non-zero if and only if the final token begins with the character `&` and is not the
only token; a non-zero result is the index of the final token. -/
theorem C14_check_background_flag (toks : List Str) (hne : toks ≠ [])
    (hlen : toks.length ≤ MAX_LINE) :
    ∃ r, check_background (toks.map some ++ List.replicate (MAX_LINE - toks.length) none)
          MAX_LINE = .ok r
      ∧ (r ≠ 0 ↔ (charAt (toks.getLast hne) 0 = '&' ∧ 2 ≤ toks.length))
      ∧ (r ≠ 0 → r = ((toks.length - 1 : Nat) : Int)) := by
  refine ⟨_, check_background_spec toks hne hlen, ?_, ?_⟩
  · have hpos : 0 < toks.length := List.length_pos.mpr hne
    by_cases hc : charAt (toks.getLast hne) 0 = '&'
    · rw [if_pos hc]
      simp only [hc, true_and]
      omega
    · simp [if_neg hc, hc]
  · intro hr
    by_cases hc : charAt (toks.getLast hne) 0 = '&'
    · simp only [if_pos hc]
    · simp [if_neg hc] at hr

/-- C14 amended at the vector `sleep`, `5`, `&`. -/
theorem C14_check_background_flag_witness :
    ∃ r, check_background (["sleep".toList, "5".toList, "&".toList].map some
          ++ List.replicate (MAX_LINE - 3) none) MAX_LINE = .ok r
      ∧ (r ≠ 0 ↔ (charAt (["sleep".toList, "5".toList, "&".toList].getLast (by decide)) 0 = '&'
          ∧ 2 ≤ 3))
      ∧ (r ≠ 0 → r = ((3 - 1 : Nat) : Int)) :=
  C14_check_background_flag ["sleep".toList, "5".toList, "&".toList] (by decide) (by decide)

/-- C15: for every argument vector of `n` tokens, `2 ≤ n < 80`, whose final token is
`"&"` (`front` being the first `n-1` tokens), `extern_code` returns a signal and the
vector it hands to `execvp`, after `check_background` and `pop`, holds the tokens of
`front`, unchanged and in order, followed by empty slots only; nothing is written to
`stderr`. -/
theorem C15_background_marker_removed (front : List Str) (p : Proc)
    (h1 : 1 ≤ front.length) (h2 : front.length + 1 < MAX_LINE) :
    ∃ code, extern_code ((front ++ ["&".toList]).map some
          ++ List.replicate (MAX_LINE - (front.length + 1)) none) MAX_LINE errs errs_len p
      = .ok (code, front.map some ++ List.replicate (MAX_LINE - front.length) none, "") := by
  simp only [MAX_LINE] at h2
  have hne : front ++ ["&".toList] ≠ [] := by simp
  have hbg := check_background_spec (front ++ ["&".toList]) hne
    (by simp only [List.length_append, List.length_singleton, MAX_LINE]; omega)
  have hamp : charAt ((front ++ ["&".toList]).getLast hne) 0 = '&' := by
    simp [charAt]
  simp only [if_pos hamp, List.length_append, List.length_singleton, Nat.add_sub_cancel] at hbg
  obtain ⟨m, hm⟩ : ∃ m, MAX_LINE - (front.length + 1) = m + 1 :=
    ⟨78 - front.length, by simp only [MAX_LINE]; omega⟩
  have hpop := pop_last front "&".toList m
  have hlen : front.length + 1 + (m + 1) = MAX_LINE := by omega
  have hfree : MAX_LINE - front.length = m + 2 := by omega
  rw [hlen, ← hm] at hpop
  have hnz : ¬ ((front.length : Int) = 0) := by omega
  have f4 : error_handler errs errs_len NO_ERRORS = .ok (NO_ERRORS, "") := by decide
  have e1 : ¬ (NO_ERRORS = EXIT) := by decide
  cases p with
  | fork_failed =>
    exact ⟨FORK_ERROR, by
      simp only [extern_code, hbg, Res.ok_bind, ne_eq, hnz, not_false_eq_true, if_true,
        Int.toNat_ofNat, hpop, f4, if_neg e1, hfree]⟩
  | child_exec_failed =>
    exact ⟨CMD_NOT_FOUND, by
      simp only [extern_code, hbg, Res.ok_bind, ne_eq, hnz, not_false_eq_true, if_true,
        Int.toNat_ofNat, hpop, f4, if_neg e1, hfree]⟩
  | parent =>
    exact ⟨NO_ERRORS, by
      simp only [extern_code, hbg, Res.ok_bind, ne_eq, hnz, not_false_eq_true, if_true,
        Int.toNat_ofNat, hpop, f4, if_neg e1, hfree]⟩

/-- C15 at the vector `sleep`, `5`, `&`. -/
theorem C15_background_marker_removed_witness :
    ∃ code, extern_code ((["sleep".toList, "5".toList] ++ ["&".toList]).map some
          ++ List.replicate (MAX_LINE - (2 + 1)) none) MAX_LINE errs errs_len Proc.parent
      = .ok (code, ["sleep".toList, "5".toList].map some
          ++ List.replicate (MAX_LINE - 2) none, "") :=
  C15_background_marker_removed ["sleep".toList, "5".toList] Proc.parent (by decide) (by decide)

/-! ## Theorems on empty input and trimming (C17, C18) -/

set_option maxRecDepth 100000 in
/-- C17 (the code at a line of one tab and at a line of three spaces): for the tab
line `trim_str` returns the tab and `del_double`, keeping nothing, returns the `NULL`
of `realloc(new_cmd, 0)`; `main` does not test it: `split_tokens` returns
`INPUT_ERROR`, which does not end the iteration, and `check_code` passes the `NULL` of
the empty vector to `strcmp`. On the line of spaces the second loop of `trim_str`
runs below index 0. Where `realloc(new_cmd, 0)` returns an empty string instead,
`split_tokens` stores one empty token for it, `check_code` returns `NO_ERRORS`, and
lines 141-147 of `main` record the empty command at slot 0 of the history and hand
it to `extern_code`. -/
theorem C17_empty_line_is_processed :
    trim_str "\t".toList 1 = .ok (some "\t".toList)
      ∧ normalize "\t".toList = .ok none
      ∧ split_tokens none (init MAX_LINE) = .ok (INPUT_ERROR, init MAX_LINE)
      ∧ error_handler errs errs_len INPUT_ERROR
        = .ok (NO_ERRORS, "I/O Error: Something happened while getting the input\n")
      ∧ check_code (init MAX_LINE) cmds MAX_LINE cmds_len = .fault
      ∧ main_iteration Shell.start (some "\t".toList) .parent = .fault
      ∧ trim_str "   ".toList 3 = .fault
      ∧ main_iteration Shell.start (some "   ".toList) .parent = .fault
      ∧ split_tokens (some []) (init MAX_LINE)
        = .ok (NO_ERRORS, some [] :: List.replicate 79 none)
      ∧ check_code (some [] :: List.replicate 79 none) cmds MAX_LINE cmds_len = .ok NO_ERRORS
      ∧ main_extern Shell.start (some []) (some [] :: List.replicate 79 none) "" .parent
        = .ok ⟨.again ⟨none, some [] :: List.replicate 127 none, 1⟩, "", [],
            some (some [] :: List.replicate 79 none)⟩ := by
  decide

/-- A string with a character other than the space: its leading spaces, then that
first character. -/
theorem leading_spaces_split (cmd : Str) (h : ∃ c ∈ cmd, c ≠ ' ') :
    ∃ sp a rest, cmd = sp ++ a :: rest ∧ (∀ c ∈ sp, c = ' ') ∧ a ≠ ' ' := by
  induction cmd with
  | nil => obtain ⟨c, hc, _⟩ := h; simp at hc
  | cons d t ih =>
    by_cases hd : d = ' '
    · obtain ⟨c, hc, hne⟩ := h
      have hct : c ∈ t := by
        rcases List.mem_cons.mp hc with h1 | h1
        · exact absurd (h1.trans hd) hne
        · exact h1
      obtain ⟨sp, a, rest, he, hsp, ha⟩ := ih ⟨c, hct, hne⟩
      refine ⟨d :: sp, a, rest, by rw [he]; rfl, ?_, ha⟩
      intro x hx
      rcases List.mem_cons.mp hx with h1 | h1
      · exact h1.trans hd
      · exact hsp x h1
    · exact ⟨[], d, t, rfl, by simp, hd⟩

/-- A string with a character other than the space: the last such character, then its
trailing spaces. -/
theorem trailing_spaces_split (cmd : Str) (h : ∃ c ∈ cmd, c ≠ ' ') :
    ∃ pre b sp1, cmd = pre ++ b :: sp1 ∧ b ≠ ' ' ∧ (∀ c ∈ sp1, c = ' ') := by
  obtain ⟨sp, a, rest, he, hsp, ha⟩ := leading_spaces_split cmd.reverse
    (by obtain ⟨c, hc, hne⟩ := h; exact ⟨c, List.mem_reverse.mpr hc, hne⟩)
  refine ⟨rest.reverse, a, sp.reverse, ?_, ha, ?_⟩
  · have := congrArg List.reverse he
    simpa using this
  · intro c hc
    exact hsp c (List.mem_reverse.mp hc)

/-- Every string `cmd` with at least one character other than the space is
`sp ++ mid ++ sp1` with `sp` and `sp1` made of spaces only and `mid` beginning and
ending with a character other than the space; `trim_str(cmd, strlen(cmd))` returns
`mid` when the terminator lies inside the block of `mid.length` bytes, and writes it
behind the block otherwise. -/
theorem trim_str_substring (cmd : Str) (h : ∃ c ∈ cmd, c ≠ ' ') :
    ∃ sp mid sp1, cmd = sp ++ mid ++ sp1
      ∧ (∀ c ∈ sp, c = ' ') ∧ (∀ c ∈ sp1, c = ' ')
      ∧ (∃ a, mid.head? = some a ∧ a ≠ ' ')
      ∧ (∃ b, mid.getLast? = some b ∧ b ≠ ' ')
      ∧ (mid.length < malloc_usable mid.length → trim_str cmd cmd.length = .ok (some mid)) := by
  obtain ⟨sp, a, rest, he, hsp, ha⟩ := leading_spaces_split cmd h
  obtain ⟨pre, b, sp1, he2, hb, hsp1⟩ := trailing_spaces_split (a :: rest)
    ⟨a, by simp, ha⟩
  have hhead : (pre ++ [b]).head? = some a := by
    cases pre with
    | nil =>
      simp only [List.nil_append, List.cons.injEq] at he2
      simp [he2.1]
    | cons x pre1 =>
      simp only [List.cons_append, List.cons.injEq] at he2
      simp [he2.1]
  have hcmd : cmd = sp ++ (pre ++ [b]) ++ sp1 := by
    rw [he, he2]; simp
  refine ⟨sp, pre ++ [b], sp1, hcmd, hsp, hsp1, ⟨a, hhead, ha⟩, ⟨b, by simp, hb⟩, ?_⟩
  intro hfit
  rw [hcmd]
  exact trim_str_mid sp pre sp1 a b hsp hsp1 hhead ha hb hfit

/-- C18 (the code at the string of 24 letters `x`, and at the line
`" echo xxxxxxxxxxxxxxxxxxx"`, whose trimmed part has 24 characters): `trim_str` asks
`malloc` for `new_length = 24` bytes, the block handed out has exactly 24 bytes, and
the terminator goes to `new_cmd[24]`, behind the block, onto the size field of the
next chunk: what is returned is not the substring as a C string. With 23 letters the
block still has 24 bytes and the substring is returned. -/
theorem C18_trim_str_terminator_past_block :
    malloc_usable 24 = 24
      ∧ trim_str (List.replicate 24 'x') 24 = .fault
      ∧ trim_str " echo xxxxxxxxxxxxxxxxxxx".toList 25 = .fault
      ∧ trim_str (List.replicate 23 'x') 23 = .ok (some (List.replicate 23 'x')) := by
  decide

/-! ## Lemmas on the frame of a REPL step -/

/-- A sequence returns exactly when both of its parts do. -/
theorem Res.bind_eq_ok {α β : Type} (x : Res α) (f : α → Res β) (b : β) :
    (x >>= f) = Res.ok b ↔ ∃ a, x = Res.ok a ∧ f a = Res.ok b := by
  cases x with
  | ok a => simp
  | fault => simp

/-- The external command `ls` run by `main` from a contiguous history with a free
slot at the cursor: the line is recorded at the cursor and the cursor advances. -/
theorem main_iteration_ls (done : List Str) (m : Nat) :
    ∃ st, main_iteration ⟨none, done.map some ++ List.replicate (m + 1) none, done.length⟩
          (some "ls".toList) .parent = .ok st
      ∧ st.next = .again ⟨none, (done ++ ["ls".toList]).map some ++ List.replicate m none,
          done.length + 1⟩ := by
  have f1 : trim_str "ls".toList "ls".toList.length = .ok (some "ls".toList) := by
    decide
  have f2 : del_double "ls".toList "ls".toList.length = .ok (some "ls".toList) := by
    decide
  have f3 : split_tokens (some "ls".toList) (init MAX_LINE)
      = .ok (NO_ERRORS, some "ls".toList :: List.replicate 79 none) := by decide
  have f4 : error_handler errs errs_len NO_ERRORS = .ok (NO_ERRORS, "") := by decide
  have f5 : check_code (some "ls".toList :: List.replicate 79 none) cmds MAX_LINE cmds_len
      = .ok NO_ERRORS := by decide
  have f6 : extern_code (some "ls".toList :: List.replicate 79 none) MAX_LINE errs errs_len
      .parent = .ok (NO_ERRORS, some "ls".toList :: List.replicate 79 none, "") := by decide
  have n2 : ¬ (NO_ERRORS = EXIT) := by decide
  refine ⟨⟨.again ⟨none, (done ++ ["ls".toList]).map some ++ List.replicate m none,
      done.length + 1⟩, "" ++ "" ++ "" ++ "" ++ "", [],
      some (some "ls".toList :: List.replicate 79 none)⟩, ?_, ?_⟩
  · simp only [main_iteration, main_process, f1, f2, f3, f4, f5, Res.ok_bind, if_neg n2,
      if_true, main_extern, push_free done m "ls".toList, f6]
  · rfl

/-- After `n ≤ 128` lines `ls` the history holds `n` entries and the cursor is `n`. -/
theorem reachable_ls (n : Nat) (hn : n ≤ MAX_CHRONO) :
    Reachable ⟨none, (List.replicate n "ls".toList).map some
      ++ List.replicate (MAX_CHRONO - n) none, n⟩ := by
  induction n with
  | zero => exact Reachable.start
  | succ k ih =>
    have hk := ih (by omega)
    obtain ⟨m, hm⟩ : ∃ m, MAX_CHRONO - k = m + 1 := ⟨MAX_CHRONO - k - 1, by omega⟩
    obtain ⟨st, h1, h2⟩ := main_iteration_ls (List.replicate k "ls".toList) m
    rw [List.length_replicate, ← hm] at h1
    have hrep : List.replicate k "ls".toList ++ ["ls".toList]
        = List.replicate (k + 1) "ls".toList := by
      rw [List.replicate_succ']
    have hm2 : m = MAX_CHRONO - (k + 1) := by omega
    rw [List.length_replicate, hrep, hm2] at h2
    exact Reachable.step _ _ _ _ st hk h1 h2

set_option maxRecDepth 100000 in
/-- C20 (the code after 128 lines `ls`): the state with all 128 slots of the history
filled and the cursor at 128 is reached, and the next line `ls` makes `main` call
`push(chrono, actual_cmd, 128)`, which reads `chrono[128]`, outside the array: the
append does not fail with a signal, it leaves the defined behaviour. -/
theorem C20_append_past_capacity :
    Reachable ⟨none, List.replicate 128 (some "ls".toList), 128⟩
      ∧ push (List.replicate 128 (some "ls".toList)) (some "ls".toList) 128 = .fault
      ∧ main_iteration ⟨none, List.replicate 128 (some "ls".toList), 128⟩
          (some "ls".toList) .parent = .fault
      ∧ main_iteration ⟨none, List.replicate 128 (some "ls".toList), 128⟩
          (some "history".toList) .parent = .fault := by
  refine ⟨?_, by decide, by decide, by decide⟩
  have h := reachable_ls 128 (le_refl _)
  have e : (List.replicate 128 "ls".toList).map some
      ++ List.replicate (MAX_CHRONO - 128) (none : Option Str)
      = List.replicate 128 (some "ls".toList) := by
    simp [MAX_CHRONO]
  rw [e] at h
  exact h

/-! ## Theorems on recall with a negative offset (C21) -/

/-- The case `!` of `intern_code` never returns 0: a parsed value of 0 is turned into
`INVALID_ARGUMENT`. -/
theorem intern_code_recall_ne_zero (args : Slots) (len : Nat) (chrono : Slots) (pos : Nat)
    (r : Intern) (h : intern_code errs errs_len args len 3 chrono pos = .ok r) :
    r.ret ≠ 0 := by
  have m0 : ¬ ((3 : Int) = 0) := by decide
  have m1 : ¬ ((3 : Int) = 1) := by decide
  have m2 : ¬ ((3 : Int) = 2) := by decide
  simp only [intern_code, if_neg m0, if_neg m1, if_neg m2, if_true, Res.bind_eq_ok] at h
  obtain ⟨arg, _, num, _, h⟩ := h
  split_ifs at h with hz
  · simp only [Res.ok.injEq] at h; subst h; exact (by decide : INVALID_ARGUMENT ≠ 0)
  · simp only [Res.ok.injEq] at h; subst h; exact hz

/-- C21 (lines 149-177 of `main` for the vectors of `"! -4"`, `"! -2"` and `"! -3"`,
classified 3 by `check_code`, in every state): `intern_code` returns the parsed value
as it is, -4 is the code `GENERAL_ERROR`, `error_handler` finds it in the table as a
fatal kind and returns `EXIT`, and `main` leaves the loop by `goto end`; likewise for
-2 (`MEM_ERROR`) and -3 (`FORK_ERROR`). -/
theorem C21_negative_recall_exits (s : Shell) (out : String) :
    split_tokens (some "! -4".toList) (init MAX_LINE)
        = .ok (NO_ERRORS, some "!".toList :: some "-4".toList :: List.replicate 78 none)
      ∧ intern_code errs errs_len (some "!".toList :: some "-4".toList :: List.replicate 78 none)
          MAX_LINE 3 s.chrono s.chrono_pos = .ok ⟨GENERAL_ERROR, s.chrono, "", []⟩
      ∧ error_handler errs errs_len GENERAL_ERROR
        = .ok (EXIT, "Something unexpected happened\n")
      ∧ main_intern s (some "!".toList :: some "-4".toList :: List.replicate 78 none) 3 out
        = .ok ⟨.finish, out ++ "" ++ "Something unexpected happened\n", [], none⟩
      ∧ main_intern s (some "!".toList :: some "-2".toList :: List.replicate 78 none) 3 out
        = .ok ⟨.finish,
            out ++ "" ++ "Memory Error: Something happened while working with memory\n", [],
            none⟩
      ∧ main_intern s (some "!".toList :: some "-3".toList :: List.replicate 78 none) 3 out
        = .ok ⟨.finish, out ++ "" ++ "Internal Error: A sys call failed\n", [], none⟩ := by
  have m0 : ¬ ((3 : Int) = 0) := by decide
  have m1 : ¬ ((3 : Int) = 1) := by decide
  have m2 : ¬ ((3 : Int) = 2) := by decide
  have a4 : atoi (some "-4".toList) = .ok (-4) := by decide
  have a2 : atoi (some "-2".toList) = .ok (-2) := by decide
  have a3 : atoi (some "-3".toList) = .ok (-3) := by decide
  have z4 : ¬ ((-4 : Int) = 0) := by decide
  have z2 : ¬ ((-2 : Int) = 0) := by decide
  have z3 : ¬ ((-3 : Int) = 0) := by decide
  have e4 : error_handler errs errs_len (-4)
      = .ok (EXIT, "Something unexpected happened\n") := by decide
  have e2 : error_handler errs errs_len (-2)
      = .ok (EXIT, "Memory Error: Something happened while working with memory\n") := by
    decide
  have e3 : error_handler errs errs_len (-3)
      = .ok (EXIT, "Internal Error: A sys call failed\n") := by decide
  have h4 : (some "!".toList :: some "-4".toList :: List.replicate 78 none)[1]?
      = some (some "-4".toList) := rfl
  have h2 : (some "!".toList :: some "-2".toList :: List.replicate 78 none)[1]?
      = some (some "-2".toList) := rfl
  have h3 : (some "!".toList :: some "-3".toList :: List.replicate 78 none)[1]?
      = some (some "-3".toList) := rfl
  refine ⟨by decide, ?_, by decide, ?_, ?_, ?_⟩
  · simp only [intern_code, if_neg m0, if_neg m1, if_neg m2, if_true, h4, Res.ok_bind, a4,
      if_neg z4]
    rfl
  · simp only [main_intern, intern_code, if_neg m0, if_neg m1, if_neg m2, if_true, h4,
      Res.ok_bind, a4, if_neg z4, e4]
  · simp only [main_intern, intern_code, if_neg m0, if_neg m1, if_neg m2, if_true, h2,
      Res.ok_bind, a2, if_neg z2, e2]
  · simp only [main_intern, intern_code, if_neg m0, if_neg m1, if_neg m2, if_true, h3,
      Res.ok_bind, a3, if_neg z3, e3]

end OSH
